import Mathlib

/-!
# lazygit controllers: staging, custom patch options menu, commit message history

A shallow embedding of three controllers of `pkg/gui/controllers`:

* `staging_controller.go` (`applySelection`, `applySelectionAndRefresh`, `ToggleStaged`,
  `ResetSelection`, `editHunk`),
* `custom_patch_options_menu_action.go` (`Call`, `getPatchCommitIndex`, the rewrite handlers),
* `commit_message_controller.go` (`handlePreviousCommit`, `handleNextCommit`,
  `handleCommitIndexChange`, `setCommitMessageAtIndex`).

Conventions of the embedding.

* A Go `error` is an `Option String`: `none` is `nil`, `some msg` is a non-nil error.
* Every handler is a pure function from the collaborators it talks to (the fields of an
  environment record: what each external call answers) to a run record: the value the handler
  returns, the state it leaves, and the ordered list of external calls it made.
* A Go `int` is 64 bits wide.  It is embedded as an `Int`, and every `int` addition or
  subtraction of a handler is followed by `wrapInt64`, which brings the exact result back into
  the range from `MinInt64` to `MaxInt64` as the machine does.
* The per-context mutex of the staging controller is taken and released around the whole
  handler body; it does not change the sequential behaviour and is left out.
-/

namespace Controllers

/-- Go `error`: `none` is `nil`. -/
abbrev GoError := Option String

/-- The largest Go `int` (`math.MaxInt64`). -/
def MaxInt64 : Int := 9223372036854775807

/-- The smallest Go `int` (`math.MinInt64`). -/
def MinInt64 : Int := -9223372036854775808

/-- The Go `int` that an addition or subtraction yields when its exact result is `x`: the value
congruent to `x` modulo 2^64 in the range from `MinInt64` to `MaxInt64`. -/
def wrapInt64 (x : Int) : Int :=
  (x + 9223372036854775808) % 18446744073709551616 - 9223372036854775808

/-! ## Staging controller -/

/-- The fields of `patch.TransformOpts` that the staging controller fills in. -/
structure TransformOpts where
  Reverse : Bool
  IncludedLineIndices : List Int
  FileNameOverride : String
  deriving DecidableEq, Repr

/-- The struct `git_commands.ApplyPatchOpts` as the staging controller fills it in. -/
structure ApplyPatchOpts where
  Reverse : Bool
  Cached : Bool
  deriving DecidableEq, Repr

/-- Modelled from the spec: `patch.ExpandRange` is called by the staging controller but its body
is not among the sources.  Section 4.2: `ExpandRange(a, b)` is the ordered set of indices
`[min(a,b) .. max(a,b)]`. -/
def ExpandRange (a b : Int) : List Int :=
  (List.range ((max a b - min a b).toNat + 1)).map (fun (i : Nat) => min a b + (i : Int))

/-- The methods of the patch-explorer state (`types.IPatchExplorerContext.GetState()`) that the
staging controller calls.  Their bodies are not among the sources, so they are parameters.  The
handlers dereference the state without a nil check, so a state is always given. -/
structure StateOps (σ : Type) where
  GetDiff : σ → String
  SelectedRange : σ → Int × Int
  SelectingRange : σ → Bool
  SelectLine : σ → Int → σ
  CurrentHunkBounds : σ → Int × Int
  GetSelectedLineIdx : σ → Int

/-- The struct `StagingController`: only the field `staged` carries data. -/
structure StagingController where
  staged : Bool
  deriving DecidableEq, Repr

/-- The translated strings (`self.c.Tr`) the staging controller uses. -/
structure StagingTr where
  ApplyPatch : String
  UnstageLinesTitle : String
  UnstageLinesPrompt : String
  deriving DecidableEq, Repr

/-- What the collaborators of the staging controller answer.  `FormatPlain diff opts` stands for
the chain `patch.Parse(diff).Transform(opts).FormatPlain()`. -/
structure StagingEnv (σ : Type) where
  ops : StateOps σ
  Tr : StagingTr
  SkipUnstageLineWarning : Bool
  GetSelectedPath : String
  ExpandRange : Int → Int → List Int
  FormatPlain : String → TransformOpts → String
  ApplyPatch : String → ApplyPatchOpts → GoError
  Error : String → GoError
  Refresh : GoError
  Confirm : GoError
  SaveTemporaryPatch : String → Except String String
  EditFileAtLineAndWait : String → Int → GoError
  Cat : String → Except String String

/-- The external calls a staging handler makes, in order. -/
inductive StagingEvent where
  | Transform (opts : TransformOpts)
  | LogAction (action : String)
  | ApplyPatch (patch : String) (opts : ApplyPatchOpts)
  | Error (err : String)
  | SelectLine (idx : Int)
  | Refresh
  | Confirm (title : String) (prompt : String)
  | SaveTemporaryPatch (patch : String)
  | EditFileAtLineAndWait (filename : String) (lineNumber : Int)
  | Cat (filename : String)
  deriving DecidableEq, Repr

/-- One run of a staging handler: returned error, state afterwards, calls made. -/
structure StagingRun (σ : Type) where
  ret : GoError
  state : σ
  events : List StagingEvent

/-- A run together with the `HandleConfirm` closure handed to `c.Confirm`, if any. -/
structure StagingOutcome (σ : Type) where
  run : StagingRun σ
  HandleConfirm : Option (StagingEnv σ → σ → StagingRun σ)

/-- `StagingController.FilePath`. -/
def FilePath {σ : Type} (E : StagingEnv σ) : String :=
  E.GetSelectedPath

/-- `StagingController.applySelection`. -/
def applySelection {σ : Type} (self : StagingController) (E : StagingEnv σ) (state : σ)
    (reverse : Bool) : StagingRun σ :=
  let path := FilePath E
  if path = "" then
    ⟨none, state, []⟩
  else
    let firstLineIdx := (E.ops.SelectedRange state).1
    let lastLineIdx := (E.ops.SelectedRange state).2
    let topts : TransformOpts := ⟨reverse, E.ExpandRange firstLineIdx lastLineIdx, path⟩
    let patchToApply := E.FormatPlain (E.ops.GetDiff state) topts
    if patchToApply = "" then
      ⟨none, state, [.Transform topts]⟩
    else
      let aopts : ApplyPatchOpts := ⟨reverse, !reverse || self.staged⟩
      let evs : List StagingEvent :=
        [.Transform topts, .LogAction E.Tr.ApplyPatch, .ApplyPatch patchToApply aopts]
      match E.ApplyPatch patchToApply aopts with
      | some err => ⟨E.Error err, state, evs ++ [.Error err]⟩
      | none =>
        if E.ops.SelectingRange state then
          let firstLine := (E.ops.SelectedRange state).1
          ⟨none, E.ops.SelectLine state firstLine, evs ++ [.SelectLine firstLine]⟩
        else
          ⟨none, state, evs⟩

/-- `StagingController.applySelectionAndRefresh`. -/
def applySelectionAndRefresh {σ : Type} (self : StagingController) (E : StagingEnv σ) (state : σ)
    (reverse : Bool) : StagingRun σ :=
  let r := applySelection self E state reverse
  match r.ret with
  | some err => ⟨some err, r.state, r.events⟩
  | none => ⟨E.Refresh, r.state, r.events ++ [.Refresh]⟩

/-- `StagingController.ToggleStaged`. -/
def ToggleStaged {σ : Type} (self : StagingController) (E : StagingEnv σ) (state : σ) :
    StagingRun σ :=
  applySelectionAndRefresh self E state self.staged

/-- `StagingController.ResetSelection`.  The closure `reset` is either run at once or handed to
`c.Confirm` as `HandleConfirm`, to be run when the user confirms. -/
def ResetSelection {σ : Type} (self : StagingController) (E : StagingEnv σ) (state : σ) :
    StagingOutcome σ :=
  let reset : StagingEnv σ → σ → StagingRun σ :=
    fun E1 s1 => applySelectionAndRefresh self E1 s1 true
  if !self.staged && !E.SkipUnstageLineWarning then
    ⟨⟨E.Confirm, state, [.Confirm E.Tr.UnstageLinesTitle E.Tr.UnstageLinesPrompt]⟩, some reset⟩
  else
    ⟨reset E state, none⟩

/-- Go `strings.Count(s, "\n")`: the number of line feeds in `s`. -/
def countNewlines (s : String) : Int :=
  ((s.toList.filter (fun c => c = Char.ofNat 10)).length : Int)

/-- `StagingController.editHunk`. -/
def editHunk {σ : Type} (self : StagingController) (E : StagingEnv σ) (state : σ) :
    StagingRun σ :=
  let path := FilePath E
  if path = "" then
    ⟨none, state, []⟩
  else
    let hunkStartIdx := (E.ops.CurrentHunkBounds state).1
    let hunkEndIdx := (E.ops.CurrentHunkBounds state).2
    let topts : TransformOpts := ⟨self.staged, E.ExpandRange hunkStartIdx hunkEndIdx, path⟩
    let patchText := E.FormatPlain (E.ops.GetDiff state) topts
    let ev1 : List StagingEvent := [.Transform topts, .SaveTemporaryPatch patchText]
    match E.SaveTemporaryPatch patchText with
    | .error err => ⟨some err, state, ev1⟩
    | .ok patchFilepath =>
      let lineOffset : Int := 3
      let lineIdxInHunk := wrapInt64 (E.ops.GetSelectedLineIdx state - hunkStartIdx)
      let lineNumber := wrapInt64 (lineIdxInHunk + lineOffset)
      let ev2 := ev1 ++ [.EditFileAtLineAndWait patchFilepath lineNumber]
      match E.EditFileAtLineAndWait patchFilepath lineNumber with
      | some err => ⟨some err, state, ev2⟩
      | none =>
        match E.Cat patchFilepath with
        | .error err => ⟨some err, state, ev2 ++ [.Cat patchFilepath]⟩
        | .ok editedPatchText =>
          let lineCount := wrapInt64 (countNewlines editedPatchText + 1)
          let topts2 : TransformOpts := ⟨false, E.ExpandRange 0 lineCount, path⟩
          let newPatchText := E.FormatPlain editedPatchText topts2
          let aopts : ApplyPatchOpts := ⟨self.staged, true⟩
          let ev3 := ev2 ++ [.Cat patchFilepath, .LogAction E.Tr.ApplyPatch, .Transform topts2,
            .ApplyPatch newPatchText aopts]
          match E.ApplyPatch newPatchText aopts with
          | some err => ⟨E.Error err, state, ev3 ++ [.Error err]⟩
          | none => ⟨none, state, ev3⟩

/-- `StagingController.EditHunkAndRefresh`. -/
def EditHunkAndRefresh {σ : Type} (self : StagingController) (E : StagingEnv σ) (state : σ) :
    StagingRun σ :=
  let r := editHunk self E state
  match r.ret with
  | some err => ⟨some err, r.state, r.events⟩
  | none => ⟨E.Refresh, r.state, r.events ++ [.Refresh]⟩

/-- The `ApplyPatch` calls of a trace, in order. -/
def applyCalls : List StagingEvent → List (String × ApplyPatchOpts)
  | [] => []
  | .ApplyPatch p o :: rest => (p, o) :: applyCalls rest
  | _ :: rest => applyCalls rest

/-- The `EditFileAtLineAndWait` calls of a trace, in order. -/
def editorCalls : List StagingEvent → List (String × Int)
  | [] => []
  | .EditFileAtLineAndWait f n :: rest => (f, n) :: editorCalls rest
  | _ :: rest => editorCalls rest

/-- The `Transform` calls of a trace, in order. -/
def transformCalls : List StagingEvent → List TransformOpts
  | [] => []
  | .Transform o :: rest => o :: transformCalls rest
  | _ :: rest => transformCalls rest

/-- The `SelectLine` calls of a trace, in order. -/
def selectLineCalls : List StagingEvent → List Int
  | [] => []
  | .SelectLine i :: rest => i :: selectLineCalls rest
  | _ :: rest => selectLineCalls rest

/-- The number of `Refresh` calls of a trace. -/
def refreshCount : List StagingEvent → Nat
  | [] => 0
  | .Refresh :: rest => refreshCount rest + 1
  | _ :: rest => refreshCount rest

/-! ### A concrete patch-explorer state, used to run the handlers on examples -/

/-- A small concrete patch-explorer state for the examples. -/
structure DemoState where
  diff : String
  selectedLineIdx : Int
  rangeStartLineIdx : Int
  rangeSelect : Bool
  hunkStart : Int
  hunkEnd : Int
  deriving DecidableEq, Repr

/-- The state methods of the example state: the selected range is the ordered pair of the range
anchor and the cursor, and `SelectLine` leaves range mode and moves the cursor. -/
def demoOps : StateOps DemoState where
  GetDiff := fun s => s.diff
  SelectedRange := fun s =>
    if s.rangeSelect then (min s.rangeStartLineIdx s.selectedLineIdx,
      max s.rangeStartLineIdx s.selectedLineIdx)
    else (s.selectedLineIdx, s.selectedLineIdx)
  SelectingRange := fun s => s.rangeSelect
  SelectLine := fun s i => ⟨s.diff, i, s.rangeStartLineIdx, false, s.hunkStart, s.hunkEnd⟩
  CurrentHunkBounds := fun s => (s.hunkStart, s.hunkEnd)
  GetSelectedLineIdx := fun s => s.selectedLineIdx

/-- An example state: cursor on line 7, range anchored at line 5, hunk spanning lines 4 to 9. -/
def demoState : DemoState := ⟨"diff", 7, 5, true, 4, 9⟩

/-- An example environment: a file is selected, the formatted patch is non-empty, and the
collaborators answer as given. -/
def demoEnv (apply : GoError) (error : String → GoError) : StagingEnv DemoState where
  ops := demoOps
  Tr := ⟨"Apply patch", "Unstage lines", "Are you sure?"⟩
  SkipUnstageLineWarning := false
  GetSelectedPath := "a.txt"
  ExpandRange := ExpandRange
  FormatPlain := fun d _ => d
  ApplyPatch := fun _ _ => apply
  Error := error
  Refresh := none
  Confirm := none
  SaveTemporaryPatch := fun _ => .ok "tmp.patch"
  EditFileAtLineAndWait := fun _ _ => none
  Cat := fun _ => .ok "edited"

/-! ## Custom patch options menu action -/

/-- The struct `models.Commit`: the menu action only reads `Sha`. -/
structure Commit where
  Sha : String
  deriving DecidableEq, Repr

/-- The enum `enums.RebaseMode` is declared outside the sources; the controller only compares a
mode with `REBASE_MODE_NONE`, so every other mode is kept by a numeric code. -/
inductive RebaseMode where
  | REBASE_MODE_NONE
  | other (code : Nat)
  deriving DecidableEq, Repr

/-- The `OnPress` closures of the menu, by the method they call. -/
inductive MenuAction where
  | Reset
  | handleApplyPatch (reverse : Bool)
  | handleDeletePatchFromCommit
  | handleMovePatchIntoWorkingTree
  | handlePullPatchIntoNewCommit
  | handleMovePatchToSelectedCommit
  | copyPatchToClipboard
  deriving DecidableEq, Repr

/-- The fields of `types.MenuItem` that `Call` fills in. -/
structure MenuItem where
  Label : String
  OnPress : MenuAction
  Key : Char
  deriving DecidableEq, Repr

/-- The translated strings (`self.c.Tr`) the menu action uses. -/
structure PatchTr where
  NoPatchError : String
  PatchOptionsTitle : String
  CantPatchWhileRebasingError : String
  RebasingStatus : String
  MustStashTitle : String
  MustStashWarning : String
  RemovePatchFromCommit : String
  MovePatchToSelectedCommit : String
  MovePatchIntoIndex : String
  MovePatchIntoNewCommit : String
  deriving DecidableEq, Repr

/-- What the collaborators of the menu action answer.  `WithWaitingStatus` maps the result of the
closure run inside the busy scope to what `c.WithWaitingStatus` itself returns. -/
structure PatchEnv where
  Tr : PatchTr
  Active : Bool
  CanRebase : Bool
  To : String
  WorkingTreeState : RebaseMode
  CurrentContextKey : String
  LocalCommitsKey : String
  CustomPatchBuilderKey : String
  LocalCommitsSelected : Option Commit
  LocalCommitsSelectedLineIdx : Int
  Commits : List Commit
  IsWorkingTreeDirty : Bool
  ErrorMsg : String → GoError
  Menu : GoError
  Confirm : GoError
  Escape : GoError
  WithWaitingStatus : GoError → GoError
  DeletePatchesFromCommit : List Commit → Int → GoError
  MovePatchToSelectedCommit : List Commit → Int → Int → GoError
  MovePatchIntoIndex : List Commit → Int → Bool → GoError
  PullPatchIntoNewCommit : List Commit → Int → GoError
  CheckMergeOrRebase : GoError → GoError

/-- The external calls the menu action makes, in order. -/
inductive PatchEvent where
  | ErrorMsg (msg : String)
  | Menu (title : String) (items : List MenuItem)
  | Escape
  | WithWaitingStatus (msg : String)
  | LogAction (action : String)
  | DeletePatchesFromCommit (commits : List Commit) (commitIndex : Int)
  | MovePatchToSelectedCommit (commits : List Commit) (commitIndex : Int)
      (destinationIndex : Int)
  | MovePatchIntoIndex (commits : List Commit) (commitIndex : Int) (stash : Bool)
  | PullPatchIntoNewCommit (commits : List Commit) (commitIndex : Int)
  | CheckMergeOrRebase (err : GoError)
  | Confirm (title : String) (prompt : String)
  deriving DecidableEq, Repr

/-- One run of a menu-action method: returned error and calls made. -/
structure PatchRun where
  ret : GoError
  events : List PatchEvent
  deriving DecidableEq, Repr

/-- A run together with the `HandleConfirm` closure handed to `c.Confirm`, if any. -/
structure PatchOutcome where
  run : PatchRun
  HandleConfirm : Option (PatchEnv → PatchRun)

/-- The slice `menuItems` that `CustomPatchOptionsMenuAction.Call` builds before it calls
`c.Menu`.  `append(s, xs...)` is `s ++ xs`, `s[:1]` is `s.take 1`, `s[1:]` is `s.drop 1`.  The
inner `append` of the splice starts from a one-element literal, so it copies `menuItems[1:]` into
a fresh array before the outer `append` writes behind `menuItems[:1]`: the slices are values. -/
def Call.menuItems (E : PatchEnv) : List MenuItem :=
  let menuItems : List MenuItem := [
    ⟨"reset patch", .Reset, 'c'⟩,
    ⟨"apply patch", .handleApplyPatch false, 'a'⟩,
    ⟨"apply patch in reverse", .handleApplyPatch true, 'r'⟩]
  let menuItems :=
    if E.CanRebase && E.WorkingTreeState == .REBASE_MODE_NONE then
      let menuItems := menuItems ++ [
        ⟨"remove patch from original commit (" ++ E.To ++ ")", .handleDeletePatchFromCommit, 'd'⟩,
        ⟨"move patch out into index", .handleMovePatchIntoWorkingTree, 'i'⟩,
        ⟨"move patch into new commit", .handlePullPatchIntoNewCommit, 'n'⟩]
      if E.CurrentContextKey = E.LocalCommitsKey then
        match E.LocalCommitsSelected with
        | some selectedCommit =>
          if E.To ≠ selectedCommit.Sha then
            menuItems.take 1 ++
              ([⟨"move patch to selected commit (" ++ selectedCommit.Sha ++ ")",
                  .handleMovePatchToSelectedCommit, 'm'⟩] ++ menuItems.drop 1)
          else menuItems
        | none => menuItems
      else menuItems
    else menuItems
  menuItems ++ [⟨"copy patch to clipboard", .copyPatchToClipboard, 'y'⟩]

/-- `CustomPatchOptionsMenuAction.Call`. -/
def Call (E : PatchEnv) : PatchRun :=
  if !E.Active then
    ⟨E.ErrorMsg E.Tr.NoPatchError, [.ErrorMsg E.Tr.NoPatchError]⟩
  else
    ⟨E.Menu, [.Menu E.Tr.PatchOptionsTitle (Call.menuItems E)]⟩

/-- The loop of `getPatchCommitIndex` over the remaining commits, `index` being the position of
the first of them. -/
def getPatchCommitIndex.loop (To : String) : List Commit → Int → Int
  | [], _ => -1
  | commit :: rest, index =>
    if commit.Sha = To then index else getPatchCommitIndex.loop To rest (index + 1)

/-- `CustomPatchOptionsMenuAction.getPatchCommitIndex`. -/
def getPatchCommitIndex (E : PatchEnv) : Int :=
  getPatchCommitIndex.loop E.To E.Commits 0

/-- `CustomPatchOptionsMenuAction.validateNormalWorkingTreeState`: the pair `(bool, error)` with
the calls made. -/
def validateNormalWorkingTreeState (E : PatchEnv) : Bool × PatchRun :=
  if E.WorkingTreeState ≠ .REBASE_MODE_NONE then
    (false, ⟨E.ErrorMsg E.Tr.CantPatchWhileRebasingError,
      [.ErrorMsg E.Tr.CantPatchWhileRebasingError]⟩)
  else
    (true, ⟨none, []⟩)

/-- `CustomPatchOptionsMenuAction.returnFocusFromPatchExplorerIfNecessary`. -/
def returnFocusFromPatchExplorerIfNecessary (E : PatchEnv) : PatchRun :=
  if E.CurrentContextKey = E.CustomPatchBuilderKey then
    ⟨E.Escape, [.Escape]⟩
  else
    ⟨none, []⟩

/-- The call `c.WithWaitingStatus(message, f)`: the closure `f` runs inside the busy scope. -/
def WithWaitingStatus (E : PatchEnv) (message : String) (f : PatchRun) : PatchRun :=
  ⟨E.WithWaitingStatus f.ret, .WithWaitingStatus message :: f.events⟩

/-- `CustomPatchOptionsMenuAction.handleDeletePatchFromCommit`. -/
def handleDeletePatchFromCommit (E : PatchEnv) : PatchRun :=
  let v := validateNormalWorkingTreeState E
  if !v.1 then
    v.2
  else
    let f := returnFocusFromPatchExplorerIfNecessary E
    match f.ret with
    | some err => ⟨some err, f.events⟩
    | none =>
      let commitIndex := getPatchCommitIndex E
      let err := E.DeletePatchesFromCommit E.Commits commitIndex
      let w := WithWaitingStatus E E.Tr.RebasingStatus
        ⟨E.CheckMergeOrRebase err, [.LogAction E.Tr.RemovePatchFromCommit,
          .DeletePatchesFromCommit E.Commits commitIndex, .CheckMergeOrRebase err]⟩
      ⟨w.ret, f.events ++ w.events⟩

/-- `CustomPatchOptionsMenuAction.handleMovePatchToSelectedCommit`. -/
def handleMovePatchToSelectedCommit (E : PatchEnv) : PatchRun :=
  let v := validateNormalWorkingTreeState E
  if !v.1 then
    v.2
  else
    let f := returnFocusFromPatchExplorerIfNecessary E
    match f.ret with
    | some err => ⟨some err, f.events⟩
    | none =>
      let commitIndex := getPatchCommitIndex E
      let err := E.MovePatchToSelectedCommit E.Commits commitIndex E.LocalCommitsSelectedLineIdx
      let w := WithWaitingStatus E E.Tr.RebasingStatus
        ⟨E.CheckMergeOrRebase err, [.LogAction E.Tr.MovePatchToSelectedCommit,
          .MovePatchToSelectedCommit E.Commits commitIndex E.LocalCommitsSelectedLineIdx,
          .CheckMergeOrRebase err]⟩
      ⟨w.ret, f.events ++ w.events⟩

/-- The closure `pull` of `handleMovePatchIntoWorkingTree`. -/
def handleMovePatchIntoWorkingTree.pull (E : PatchEnv) (stash : Bool) : PatchRun :=
  let commitIndex := getPatchCommitIndex E
  let err := E.MovePatchIntoIndex E.Commits commitIndex stash
  WithWaitingStatus E E.Tr.RebasingStatus
    ⟨E.CheckMergeOrRebase err, [.LogAction E.Tr.MovePatchIntoIndex,
      .MovePatchIntoIndex E.Commits commitIndex stash, .CheckMergeOrRebase err]⟩

/-- `CustomPatchOptionsMenuAction.handleMovePatchIntoWorkingTree`.  On a dirty working tree the
closure calling `pull(true)` is handed to `c.Confirm` and runs when the user confirms. -/
def handleMovePatchIntoWorkingTree (E : PatchEnv) : PatchOutcome :=
  let v := validateNormalWorkingTreeState E
  if !v.1 then
    ⟨v.2, none⟩
  else
    let f := returnFocusFromPatchExplorerIfNecessary E
    match f.ret with
    | some err => ⟨⟨some err, f.events⟩, none⟩
    | none =>
      if E.IsWorkingTreeDirty then
        ⟨⟨E.Confirm, f.events ++ [.Confirm E.Tr.MustStashTitle E.Tr.MustStashWarning]⟩,
          some (fun E1 => handleMovePatchIntoWorkingTree.pull E1 true)⟩
      else
        let w := handleMovePatchIntoWorkingTree.pull E false
        ⟨⟨w.ret, f.events ++ w.events⟩, none⟩

/-- `CustomPatchOptionsMenuAction.handlePullPatchIntoNewCommit`. -/
def handlePullPatchIntoNewCommit (E : PatchEnv) : PatchRun :=
  let v := validateNormalWorkingTreeState E
  if !v.1 then
    v.2
  else
    let f := returnFocusFromPatchExplorerIfNecessary E
    match f.ret with
    | some err => ⟨some err, f.events⟩
    | none =>
      let commitIndex := getPatchCommitIndex E
      let err := E.PullPatchIntoNewCommit E.Commits commitIndex
      let w := WithWaitingStatus E E.Tr.RebasingStatus
        ⟨E.CheckMergeOrRebase err, [.LogAction E.Tr.MovePatchIntoNewCommit,
          .PullPatchIntoNewCommit E.Commits commitIndex, .CheckMergeOrRebase err]⟩
      ⟨w.ret, f.events ++ w.events⟩

/-- Whether a call is one of the four PatchBuilder rebase operations. -/
def PatchEvent.isRebaseOp : PatchEvent → Bool
  | .DeletePatchesFromCommit _ _ => true
  | .MovePatchToSelectedCommit _ _ _ => true
  | .MovePatchIntoIndex _ _ _ => true
  | .PullPatchIntoNewCommit _ _ => true
  | _ => false

/-- The `stash` arguments of the `MovePatchIntoIndex` calls of a trace, in order. -/
def stashArgs : List PatchEvent → List Bool
  | [] => []
  | .MovePatchIntoIndex _ _ stash :: rest => stash :: stashArgs rest
  | _ :: rest => stashArgs rest

/-- The menu of `Call` as a declarative ordered list of optional entries, each gated by a
predicate: `[c, m?, a, r, d?, i?, n?, y]`, where `d`, `i`, `n` are present iff `R` (the builder
can rebase and the working tree is in no rebase) and `m` is present iff `R`, the current context
is the local commits context, a commit is selected and its Sha differs from the patch target. -/
def declarativeMenu (E : PatchEnv) : List MenuItem :=
  let R : Bool := E.CanRebase && decide (E.WorkingTreeState = .REBASE_MODE_NONE)
  let M : Option Commit :=
    match E.LocalCommitsSelected with
    | some c =>
      if R && decide (E.CurrentContextKey = E.LocalCommitsKey) && decide (c.Sha ≠ E.To)
      then some c else none
    | none => none
  let entries : List (Option MenuItem) := [
    some ⟨"reset patch", .Reset, 'c'⟩,
    M.map (fun c => ⟨"move patch to selected commit (" ++ c.Sha ++ ")",
      .handleMovePatchToSelectedCommit, 'm'⟩),
    some ⟨"apply patch", .handleApplyPatch false, 'a'⟩,
    some ⟨"apply patch in reverse", .handleApplyPatch true, 'r'⟩,
    if R then some ⟨"remove patch from original commit (" ++ E.To ++ ")",
      .handleDeletePatchFromCommit, 'd'⟩ else none,
    if R then some ⟨"move patch out into index", .handleMovePatchIntoWorkingTree, 'i'⟩ else none,
    if R then some ⟨"move patch into new commit", .handlePullPatchIntoNewCommit, 'n'⟩ else none,
    some ⟨"copy patch to clipboard", .copyPatchToClipboard, 'y'⟩]
  entries.filterMap id

/-- An example environment of the menu action: the patch was built against commit `b`, the
second of three commits, and the local commits context has the first commit selected. -/
def demoPatchEnv (wts : RebaseMode) (dirty : Bool) : PatchEnv where
  Tr := ⟨"no patch", "Patch options", "cannot patch while rebasing", "rebasing", "Must stash",
    "stash first?", "remove", "move to commit", "move into index", "move into new commit"⟩
  Active := true
  CanRebase := true
  To := "b"
  WorkingTreeState := wts
  CurrentContextKey := "commits"
  LocalCommitsKey := "commits"
  CustomPatchBuilderKey := "patchBuilding"
  LocalCommitsSelected := some ⟨"a"⟩
  LocalCommitsSelectedLineIdx := 0
  Commits := [⟨"a"⟩, ⟨"b"⟩, ⟨"b"⟩]
  IsWorkingTreeDirty := dirty
  ErrorMsg := fun _ => none
  Menu := none
  Confirm := none
  Escape := none
  WithWaitingStatus := fun e => e
  DeletePatchesFromCommit := fun _ _ => none
  MovePatchToSelectedCommit := fun _ _ _ => none
  MovePatchIntoIndex := fun _ _ _ => none
  PullPatchIntoNewCommit := fun _ _ => none
  CheckMergeOrRebase := fun e => e

/-! ## Commit message controller -/

/-- What `GetCommitMessageFromHistory` answers: a message, the sentinel error
`git_commands.ErrInvalidCommitIndex`, or another error. -/
inductive HistoryResult where
  | ok (message : String)
  | ErrInvalidCommitIndex
  | otherError (err : String)
  deriving DecidableEq, Repr

/-- The part of `context.CommitMessageContext` the controller reads and writes. -/
structure CommitMessageContext where
  selectedIndex : Int
  historyMessage : String
  deriving DecidableEq, Repr

/-- What the collaborators of the commit message controller answer. -/
structure CommitEnv where
  GetCommitMessageFromHistory : Int → HistoryResult
  JoinCommitMessageAndDescription : String
  ErrorMsg : String → GoError
  CommitWithoutMessageErr : String

/-- The external calls the commit message controller makes, in order. -/
inductive CommitEvent where
  | SetMessageAndDescriptionInView (message : String)
  | GetCommitMessageFromHistory (index : Int)
  | UpdateCommitPanelView (message : String)
  | ErrorMsg (msg : String)
  deriving DecidableEq, Repr

/-- One run of a commit message handler: returned error, context afterwards, calls made. -/
structure CommitRun where
  ret : GoError
  ctx : CommitMessageContext
  events : List CommitEvent
  deriving DecidableEq, Repr

/-- `CommitMessageController.setCommitMessageAtIndex`: the pair `(bool, error)` with the calls
made. -/
def setCommitMessageAtIndex (E : CommitEnv) (index : Int) : Bool × GoError × List CommitEvent :=
  match E.GetCommitMessageFromHistory index with
  | .ErrInvalidCommitIndex => (false, none, [.GetCommitMessageFromHistory index])
  | .otherError _ =>
    (false, E.ErrorMsg E.CommitWithoutMessageErr,
      [.GetCommitMessageFromHistory index, .ErrorMsg E.CommitWithoutMessageErr])
  | .ok commitMessage =>
    (true, none, [.GetCommitMessageFromHistory index, .UpdateCommitPanelView commitMessage])

/-- `CommitMessageController.handleCommitIndexChange`.  The constant `context.NoCommitIndex` is
declared outside the sources and is the parameter `NoCommitIndex`. -/
def handleCommitIndexChange (NoCommitIndex : Int) (E : CommitEnv) (ctx : CommitMessageContext)
    (value : Int) : CommitRun :=
  let currentIndex := ctx.selectedIndex
  let newIndex := wrapInt64 (currentIndex + value)
  if newIndex = NoCommitIndex then
    ⟨none, ⟨newIndex, ctx.historyMessage⟩, [.SetMessageAndDescriptionInView ctx.historyMessage]⟩
  else
    let ctx1 : CommitMessageContext :=
      if currentIndex = NoCommitIndex then
        ⟨ctx.selectedIndex, E.JoinCommitMessageAndDescription⟩
      else ctx
    let r := setCommitMessageAtIndex E newIndex
    if r.1 then
      ⟨r.2.1, ⟨newIndex, ctx1.historyMessage⟩, r.2.2⟩
    else
      ⟨r.2.1, ctx1, r.2.2⟩

/-- `CommitMessageController.handlePreviousCommit`. -/
def handlePreviousCommit (NoCommitIndex : Int) (E : CommitEnv) (ctx : CommitMessageContext) :
    CommitRun :=
  handleCommitIndexChange NoCommitIndex E ctx 1

/-- `CommitMessageController.handleNextCommit`. -/
def handleNextCommit (NoCommitIndex : Int) (E : CommitEnv) (ctx : CommitMessageContext) :
    CommitRun :=
  if ctx.selectedIndex = NoCommitIndex then
    ⟨none, ctx, []⟩
  else
    handleCommitIndexChange NoCommitIndex E ctx (-1)

/-- The two history keys of the commit message panel. -/
inductive HistoryKey where
  | previous
  | next
  deriving DecidableEq, Repr

/-- One key press: the handler bound to the key, run against what the collaborators answer at
that moment. -/
def pressKey (NoCommitIndex : Int) (ctx : CommitMessageContext) (k : HistoryKey × CommitEnv) :
    CommitRun :=
  match k.1 with
  | .previous => handlePreviousCommit NoCommitIndex k.2 ctx
  | .next => handleNextCommit NoCommitIndex k.2 ctx

/-- A sequence of key presses, each handler starting from the context the previous one left. -/
def pressKeys (NoCommitIndex : Int) (ctx : CommitMessageContext) :
    List (HistoryKey × CommitEnv) → CommitMessageContext
  | [] => ctx
  | k :: rest => pressKeys NoCommitIndex (pressKey NoCommitIndex ctx k).ctx rest

/-- The number of presses of the previous key in a sequence of key presses. -/
def previousPresses : List (HistoryKey × CommitEnv) → Nat
  | [] => 0
  | (.previous, _) :: rest => previousPresses rest + 1
  | (.next, _) :: rest => previousPresses rest

/-- An example environment of the commit message controller in which every lookup in the
history succeeds. -/
def demoCommitEnvAllOk : CommitEnv where
  GetCommitMessageFromHistory := fun _ => .ok "message"
  JoinCommitMessageAndDescription := "draft"
  ErrorMsg := fun _ => none
  CommitWithoutMessageErr := "commit without message"

/-- An example environment of the commit message controller: a history of two commits. -/
def demoCommitEnv : CommitEnv where
  GetCommitMessageFromHistory := fun i =>
    if i = 0 then .ok "first" else if i = 1 then .ok "second" else .ErrInvalidCommitIndex
  JoinCommitMessageAndDescription := "draft"
  ErrorMsg := fun _ => none
  CommitWithoutMessageErr := "commit without message"

/-! ## Theorems: staging controller -/

theorem mem_ExpandRange (a b i : Int) : i ∈ ExpandRange a b ↔ min a b ≤ i ∧ i ≤ max a b := by
  unfold ExpandRange
  simp only [List.mem_map, List.mem_range]
  constructor
  · rintro ⟨k, hk, rfl⟩
    have h : min a b ≤ max a b := le_trans (min_le_left a b) (le_max_left a b)
    omega
  · rintro ⟨h1, h2⟩
    refine ⟨(i - min a b).toNat, ?_, ?_⟩ <;> omega

theorem sorted_ExpandRange (a b : Int) : List.Pairwise (fun x y => x < y) (ExpandRange a b) := by
  unfold ExpandRange
  rw [List.pairwise_map]
  refine List.Pairwise.imp ?_ (List.pairwise_lt_range _)
  intro x y hxy
  omega

/-- C4: for all integers a and b, ExpandRange(a, b) equals ExpandRange(b, a), and both are the
ascending inclusive list of the indices from min(a, b) to max(a, b): the list is strictly
ascending, holds exactly the integers between the two bounds, and so has max - min + 1 entries,
the k-th being min + k. -/
theorem ExpandRange_symmetric_ascending_inclusive (a b : Int) :
    ExpandRange a b = ExpandRange b a ∧
    List.Pairwise (fun x y => x < y) (ExpandRange a b) ∧
    (∀ i : Int, i ∈ ExpandRange a b ↔ min a b ≤ i ∧ i ≤ max a b) ∧
    ((ExpandRange a b).length : Int) = max a b - min a b + 1 ∧
    (∀ k : Nat, (k : Int) ≤ max a b - min a b →
      (ExpandRange a b)[k]? = some (min a b + (k : Int))) := by
  have hle : min a b ≤ max a b := le_trans (min_le_left a b) (le_max_left a b)
  refine ⟨?_, sorted_ExpandRange a b, mem_ExpandRange a b, ?_, ?_⟩
  · unfold ExpandRange
    rw [min_comm a b, max_comm a b]
  · unfold ExpandRange
    simp only [List.length_map, List.length_range]
    omega
  · intro k hk
    unfold ExpandRange
    rw [List.getElem?_map, List.getElem?_range (by omega)]
    rfl

/-- C4 at an example: ExpandRange(5, 3) holds 5 at position 2, as ExpandRange(3, 5) does. -/
theorem ExpandRange_example : (ExpandRange 5 3)[2]? = some 5 :=
  (ExpandRange_symmetric_ascending_inclusive 5 3).2.2.2.2 2 (by decide)

/-- Inside the 64-bit range `wrapInt64` changes nothing. -/
theorem wrapInt64_of_inRange (x : Int) (h1 : MinInt64 ≤ x) (h2 : x ≤ MaxInt64) :
    wrapInt64 x = x := by
  unfold wrapInt64
  unfold MinInt64 at h1
  unfold MaxInt64 at h2
  omega

/-- The editor line of `editHunk` without wrapping: when neither the subtraction nor the
addition leaves the 64-bit range, the line is `(s - h) + 3`. -/
theorem wrapInt64_line_of_inRange (s h : Int) (h1 : MinInt64 ≤ s - h)
    (h2 : s - h + 3 ≤ MaxInt64) : wrapInt64 (wrapInt64 (s - h) + 3) = (s - h) + 3 := by
  unfold wrapInt64
  unfold MinInt64 at h1
  unfold MaxInt64 at h2
  omega

/-- The editor calls of `editHunk`: none when no file is selected or the temporary patch cannot
be saved, otherwise one call on the saved file. -/
theorem editorCalls_editHunk {σ : Type} (self : StagingController) (E : StagingEnv σ)
    (state : σ) :
    editorCalls (editHunk self E state).events =
      if FilePath E = "" then []
      else
        match E.SaveTemporaryPatch (E.FormatPlain (E.ops.GetDiff state)
          ⟨self.staged, E.ExpandRange (E.ops.CurrentHunkBounds state).1
            (E.ops.CurrentHunkBounds state).2, FilePath E⟩) with
        | .error _ => []
        | .ok tmp =>
          [(tmp, wrapInt64 (wrapInt64
            (E.ops.GetSelectedLineIdx state - (E.ops.CurrentHunkBounds state).1) + 3))] := by
  unfold editHunk
  by_cases hp : FilePath E = ""
  · simp [hp, editorCalls]
  · simp only [hp, if_false]
    split
    · simp [editorCalls]
    · split
      · simp [editorCalls]
      · split
        · simp [editorCalls]
        · split <;> simp [editorCalls]

/-- C1 (counterexample): the cursor is on line index MaxInt64 of a hunk starting at index 0, so
s >= h; the 64-bit addition of the header allowance wraps, and the editor is opened at line
MinInt64 + 2, which is below 3 and is not (s - h) + 3. -/
theorem editHunk_editor_line_wraps_at_MaxInt64 :
    editorCalls (editHunk ⟨false⟩ (demoEnv none (fun _ => none))
      ⟨"diff", 9223372036854775807, 5, true, 0, 9⟩).events =
        [("tmp.patch", -9223372036854775806)] ∧
    (0 : Int) ≤ 9223372036854775807 ∧
    ¬ ((3 : Int) ≤ -9223372036854775806) ∧
    (-9223372036854775806 : Int) ≠ (9223372036854775807 - 0) + 3 := by
  decide

/-- C1 (amended): for every patch-explorer state with selected line index s and current hunk
start index h, every call of the blocking editor made by editHunk is at the Go int value of
(s - h) + 3 (the in-hunk line index plus the header allowance of 3, each step in 64-bit
arithmetic), and with a file selected and the temporary patch saved as `tmp` there is exactly
one such call, on `tmp`.  Whenever s - h >= MinInt64 and (s - h) + 3 <= MaxInt64 that value is
exactly (s - h) + 3.  When s = h the line is 3, and whenever s >= h and (s - h) + 3 <= MaxInt64
the line is at least 3. -/
theorem editHunk_opens_editor_at_int64_line_in_hunk_plus_three {σ : Type}
    (self : StagingController) (E : StagingEnv σ) (state : σ) :
    (∀ call ∈ editorCalls (editHunk self E state).events,
      call.2 = wrapInt64 (wrapInt64
        (E.ops.GetSelectedLineIdx state - (E.ops.CurrentHunkBounds state).1) + 3)) ∧
    (∀ tmp : String, FilePath E ≠ "" →
      E.SaveTemporaryPatch (E.FormatPlain (E.ops.GetDiff state)
        ⟨self.staged, E.ExpandRange (E.ops.CurrentHunkBounds state).1
          (E.ops.CurrentHunkBounds state).2, FilePath E⟩) = .ok tmp →
      editorCalls (editHunk self E state).events =
        [(tmp, wrapInt64 (wrapInt64
          (E.ops.GetSelectedLineIdx state - (E.ops.CurrentHunkBounds state).1) + 3))]) ∧
    (MinInt64 ≤ E.ops.GetSelectedLineIdx state - (E.ops.CurrentHunkBounds state).1 →
      E.ops.GetSelectedLineIdx state - (E.ops.CurrentHunkBounds state).1 + 3 ≤ MaxInt64 →
        (∀ call ∈ editorCalls (editHunk self E state).events,
          call.2 = (E.ops.GetSelectedLineIdx state - (E.ops.CurrentHunkBounds state).1) + 3) ∧
        (∀ tmp : String, FilePath E ≠ "" →
          E.SaveTemporaryPatch (E.FormatPlain (E.ops.GetDiff state)
            ⟨self.staged, E.ExpandRange (E.ops.CurrentHunkBounds state).1
              (E.ops.CurrentHunkBounds state).2, FilePath E⟩) = .ok tmp →
          editorCalls (editHunk self E state).events =
            [(tmp, (E.ops.GetSelectedLineIdx state - (E.ops.CurrentHunkBounds state).1)
              + 3)])) ∧
    (E.ops.GetSelectedLineIdx state = (E.ops.CurrentHunkBounds state).1 →
      ∀ call ∈ editorCalls (editHunk self E state).events, call.2 = 3) ∧
    ((E.ops.CurrentHunkBounds state).1 ≤ E.ops.GetSelectedLineIdx state →
      E.ops.GetSelectedLineIdx state - (E.ops.CurrentHunkBounds state).1 + 3 ≤ MaxInt64 →
        ∀ call ∈ editorCalls (editHunk self E state).events, 3 ≤ call.2) := by
  have key : ∀ call ∈ editorCalls (editHunk self E state).events,
      call.2 = wrapInt64 (wrapInt64
        (E.ops.GetSelectedLineIdx state - (E.ops.CurrentHunkBounds state).1) + 3) := by
    intro call hc
    rw [editorCalls_editHunk] at hc
    split at hc
    · simp at hc
    · split at hc
      · simp at hc
      · simp at hc
        rw [hc]
  have one : ∀ tmp : String, FilePath E ≠ "" →
      E.SaveTemporaryPatch (E.FormatPlain (E.ops.GetDiff state)
        ⟨self.staged, E.ExpandRange (E.ops.CurrentHunkBounds state).1
          (E.ops.CurrentHunkBounds state).2, FilePath E⟩) = .ok tmp →
      editorCalls (editHunk self E state).events =
        [(tmp, wrapInt64 (wrapInt64
          (E.ops.GetSelectedLineIdx state - (E.ops.CurrentHunkBounds state).1) + 3))] := by
    intro tmp hp hs
    rw [editorCalls_editHunk, if_neg hp, hs]
  refine ⟨key, one, ?_, ?_, ?_⟩
  · intro h1 h2
    have hw := wrapInt64_line_of_inRange _ _ h1 h2
    refine ⟨?_, ?_⟩
    · intro call hc
      rw [key call hc, hw]
    · intro tmp hp hs
      rw [one tmp hp hs, hw]
  · intro h call hc
    rw [key call hc, h]
    unfold wrapInt64
    omega
  · intro h h2 call hc
    rw [key call hc, wrapInt64_line_of_inRange _ _ (by unfold MinInt64; omega) h2]
    omega

/-- C1 (amended) at an example: cursor on line 7 of a hunk starting at line 4, so the editor
opens the saved patch at line 6. -/
theorem editHunk_opens_editor_example :
    editorCalls (editHunk ⟨false⟩ (demoEnv none (fun _ => none)) demoState).events =
      [("tmp.patch", 6)] :=
  ((editHunk_opens_editor_at_int64_line_in_hunk_plus_three ⟨false⟩
    (demoEnv none (fun _ => none)) demoState).2.2.1 (by decide) (by decide)).2
    "tmp.patch" (by decide) rfl

/-- The five ways `applySelection` can end, with the state and the calls of each. -/
theorem applySelection_cases {σ : Type} (self : StagingController) (E : StagingEnv σ)
    (state : σ) (reverse : Bool) :
    applySelection self E state reverse =
      if FilePath E = "" then ⟨none, state, []⟩
      else if E.FormatPlain (E.ops.GetDiff state)
          ⟨reverse, E.ExpandRange (E.ops.SelectedRange state).1 (E.ops.SelectedRange state).2,
            FilePath E⟩ = "" then
        ⟨none, state, [.Transform ⟨reverse, E.ExpandRange (E.ops.SelectedRange state).1
          (E.ops.SelectedRange state).2, FilePath E⟩]⟩
      else
        match E.ApplyPatch (E.FormatPlain (E.ops.GetDiff state)
            ⟨reverse, E.ExpandRange (E.ops.SelectedRange state).1
              (E.ops.SelectedRange state).2, FilePath E⟩) ⟨reverse, !reverse || self.staged⟩ with
        | some err =>
          ⟨E.Error err, state,
            [.Transform ⟨reverse, E.ExpandRange (E.ops.SelectedRange state).1
              (E.ops.SelectedRange state).2, FilePath E⟩, .LogAction E.Tr.ApplyPatch,
             .ApplyPatch (E.FormatPlain (E.ops.GetDiff state)
              ⟨reverse, E.ExpandRange (E.ops.SelectedRange state).1
                (E.ops.SelectedRange state).2, FilePath E⟩) ⟨reverse, !reverse || self.staged⟩,
             .Error err]⟩
        | none =>
          if E.ops.SelectingRange state then
            ⟨none, E.ops.SelectLine state (E.ops.SelectedRange state).1,
              [.Transform ⟨reverse, E.ExpandRange (E.ops.SelectedRange state).1
                (E.ops.SelectedRange state).2, FilePath E⟩, .LogAction E.Tr.ApplyPatch,
               .ApplyPatch (E.FormatPlain (E.ops.GetDiff state)
                ⟨reverse, E.ExpandRange (E.ops.SelectedRange state).1
                  (E.ops.SelectedRange state).2, FilePath E⟩) ⟨reverse, !reverse || self.staged⟩,
               .SelectLine (E.ops.SelectedRange state).1]⟩
          else
            ⟨none, state,
              [.Transform ⟨reverse, E.ExpandRange (E.ops.SelectedRange state).1
                (E.ops.SelectedRange state).2, FilePath E⟩, .LogAction E.Tr.ApplyPatch,
               .ApplyPatch (E.FormatPlain (E.ops.GetDiff state)
                ⟨reverse, E.ExpandRange (E.ops.SelectedRange state).1
                  (E.ops.SelectedRange state).2, FilePath E⟩)
                  ⟨reverse, !reverse || self.staged⟩]⟩ := by
  unfold applySelection
  by_cases hp : FilePath E = ""
  · simp [hp]
  · simp only [hp, if_false]
    split
    · rfl
    · split
      · simp
      · split <;> simp

theorem applyCalls_append (l1 l2 : List StagingEvent) :
    applyCalls (l1 ++ l2) = applyCalls l1 ++ applyCalls l2 := by
  induction l1 with
  | nil => rfl
  | cons e rest ih => cases e <;> simp [applyCalls, ih]

theorem selectLineCalls_append (l1 l2 : List StagingEvent) :
    selectLineCalls (l1 ++ l2) = selectLineCalls l1 ++ selectLineCalls l2 := by
  induction l1 with
  | nil => rfl
  | cons e rest ih => cases e <;> simp [selectLineCalls, ih]

theorem transformCalls_append (l1 l2 : List StagingEvent) :
    transformCalls (l1 ++ l2) = transformCalls l1 ++ transformCalls l2 := by
  induction l1 with
  | nil => rfl
  | cons e rest ih => cases e <;> simp [transformCalls, ih]

theorem refreshCount_append (l1 l2 : List StagingEvent) :
    refreshCount (l1 ++ l2) = refreshCount l1 + refreshCount l2 := by
  induction l1 with
  | nil => simp [refreshCount]
  | cons e rest ih =>
    cases e
    case Refresh => simp [refreshCount, ih]; omega
    all_goals simp [refreshCount, ih]

/-- The apply calls of `applySelection`: none without a file or without a patch, otherwise one,
with `Reverse = reverse` and `Cached = !reverse || staged`. -/
theorem applyCalls_applySelection {σ : Type} (self : StagingController) (E : StagingEnv σ)
    (state : σ) (reverse : Bool) :
    applyCalls (applySelection self E state reverse).events =
      if FilePath E = "" ∨ E.FormatPlain (E.ops.GetDiff state)
          ⟨reverse, E.ExpandRange (E.ops.SelectedRange state).1 (E.ops.SelectedRange state).2,
            FilePath E⟩ = "" then []
      else [(E.FormatPlain (E.ops.GetDiff state)
          ⟨reverse, E.ExpandRange (E.ops.SelectedRange state).1 (E.ops.SelectedRange state).2,
            FilePath E⟩, ⟨reverse, !reverse || self.staged⟩)] := by
  rw [applySelection_cases]
  by_cases hp : FilePath E = ""
  · simp [hp, applyCalls]
  · simp only [hp, if_false, false_or]
    split
    · simp [applyCalls]
    · split
      · simp [applyCalls]
      · split <;> simp [applyCalls]

/-- The transform calls of `applySelection`: none without a file, otherwise one, with
`Reverse = reverse`, the expanded selected range and the selected path. -/
theorem transformCalls_applySelection {σ : Type} (self : StagingController) (E : StagingEnv σ)
    (state : σ) (reverse : Bool) :
    transformCalls (applySelection self E state reverse).events =
      if FilePath E = "" then []
      else [⟨reverse, E.ExpandRange (E.ops.SelectedRange state).1 (E.ops.SelectedRange state).2,
        FilePath E⟩] := by
  rw [applySelection_cases]
  by_cases hp : FilePath E = ""
  · simp [hp, transformCalls]
  · simp only [hp, if_false]
    split
    · simp [transformCalls]
    · split
      · simp [transformCalls]
      · split <;> simp [transformCalls]

/-- When `applySelection` returns nil, `applySelectionAndRefresh` goes on to refresh. -/
theorem applySelectionAndRefresh_of_nil {σ : Type} (self : StagingController)
    (E : StagingEnv σ) (state : σ) (reverse : Bool)
    (h : (applySelection self E state reverse).ret = none) :
    applySelectionAndRefresh self E state reverse =
      ⟨E.Refresh, (applySelection self E state reverse).state,
        (applySelection self E state reverse).events ++ [.Refresh]⟩ := by
  simp only [applySelectionAndRefresh, h]

/-- When `applySelection` returns an error, `applySelectionAndRefresh` returns it at once. -/
theorem applySelectionAndRefresh_of_error {σ : Type} (self : StagingController)
    (E : StagingEnv σ) (state : σ) (reverse : Bool) (err : String)
    (h : (applySelection self E state reverse).ret = some err) :
    applySelectionAndRefresh self E state reverse =
      ⟨some err, (applySelection self E state reverse).state,
        (applySelection self E state reverse).events⟩ := by
  simp only [applySelectionAndRefresh, h]

/-- The apply calls of `applySelectionAndRefresh` are those of `applySelection`. -/
theorem applyCalls_applySelectionAndRefresh {σ : Type} (self : StagingController)
    (E : StagingEnv σ) (state : σ) (reverse : Bool) :
    applyCalls (applySelectionAndRefresh self E state reverse).events =
      applyCalls (applySelection self E state reverse).events := by
  cases h : (applySelection self E state reverse).ret with
  | none => rw [applySelectionAndRefresh_of_nil self E state reverse h]; simp [applyCalls_append, applyCalls]
  | some err => rw [applySelectionAndRefresh_of_error self E state reverse err h]

/-- The state `applySelectionAndRefresh` leaves is the one `applySelection` leaves. -/
theorem state_applySelectionAndRefresh {σ : Type} (self : StagingController)
    (E : StagingEnv σ) (state : σ) (reverse : Bool) :
    (applySelectionAndRefresh self E state reverse).state =
      (applySelection self E state reverse).state := by
  cases h : (applySelection self E state reverse).ret with
  | none => rw [applySelectionAndRefresh_of_nil self E state reverse h]
  | some err => rw [applySelectionAndRefresh_of_error self E state reverse err h]

/-- `applySelection` itself never refreshes. -/
theorem refreshCount_applySelection {σ : Type} (self : StagingController) (E : StagingEnv σ)
    (state : σ) (reverse : Bool) :
    refreshCount (applySelection self E state reverse).events = 0 := by
  rw [applySelection_cases]
  by_cases hp : FilePath E = ""
  · simp [hp, refreshCount]
  · simp only [hp, if_false]
    split
    · simp [refreshCount]
    · split
      · simp [refreshCount]
      · split <;> simp [refreshCount]

/-- The apply calls of `editHunk`: at most one, with `Reverse = staged` and `Cached = true`. -/
theorem applyCalls_editHunk {σ : Type} (self : StagingController) (E : StagingEnv σ)
    (state : σ) :
    ∀ call ∈ applyCalls (editHunk self E state).events, call.2 = ⟨self.staged, true⟩ := by
  intro call hc
  unfold editHunk at hc
  by_cases hp : FilePath E = ""
  · simp [hp, applyCalls] at hc
  · simp only [hp, if_false] at hc
    split at hc
    · simp [applyCalls] at hc
    · split at hc
      · simp [applyCalls] at hc
      · split at hc
        · simp [applyCalls] at hc
        · split at hc <;> (simp [applyCalls] at hc; rw [hc])

/-- What `applySelection` does when the patch is rejected: it returns what `c.Error` returns,
the state is untouched and the trace ends with the call of `c.Error`. -/
theorem applySelection_of_rejected {σ : Type} (self : StagingController) (E : StagingEnv σ)
    (state : σ) (reverse : Bool) (p : String) (o : ApplyPatchOpts) (err : String)
    (hcall : (p, o) ∈ applyCalls (applySelection self E state reverse).events)
    (hrej : E.ApplyPatch p o = some err) :
    applySelection self E state reverse =
      ⟨E.Error err, state,
        [.Transform ⟨reverse, E.ExpandRange (E.ops.SelectedRange state).1
          (E.ops.SelectedRange state).2, FilePath E⟩, .LogAction E.Tr.ApplyPatch,
         .ApplyPatch p o, .Error err]⟩ := by
  have hc := applyCalls_applySelection self E state reverse
  rw [hc] at hcall
  split at hcall
  · simp at hcall
  · rename_i hne
    simp only [not_or] at hne
    simp only [List.mem_singleton, Prod.mk.injEq] at hcall
    obtain ⟨hp, ho⟩ := hcall
    rw [applySelection_cases, if_neg hne.1, if_neg hne.2, ← hp, ← ho, hrej]

/-- What `applySelection` does when the patch is applied: it returns nil and, when a range is
being selected, collapses the selection to the first line of the range. -/
theorem applySelection_of_applied {σ : Type} (self : StagingController) (E : StagingEnv σ)
    (state : σ) (reverse : Bool) (p : String) (o : ApplyPatchOpts)
    (hcall : (p, o) ∈ applyCalls (applySelection self E state reverse).events)
    (hok : E.ApplyPatch p o = none) :
    applySelection self E state reverse =
      if E.ops.SelectingRange state then
        ⟨none, E.ops.SelectLine state (E.ops.SelectedRange state).1,
          [.Transform ⟨reverse, E.ExpandRange (E.ops.SelectedRange state).1
            (E.ops.SelectedRange state).2, FilePath E⟩, .LogAction E.Tr.ApplyPatch,
           .ApplyPatch p o, .SelectLine (E.ops.SelectedRange state).1]⟩
      else
        ⟨none, state,
          [.Transform ⟨reverse, E.ExpandRange (E.ops.SelectedRange state).1
            (E.ops.SelectedRange state).2, FilePath E⟩, .LogAction E.Tr.ApplyPatch,
           .ApplyPatch p o]⟩ := by
  have hc := applyCalls_applySelection self E state reverse
  rw [hc] at hcall
  split at hcall
  · simp at hcall
  · rename_i hne
    simp only [not_or] at hne
    simp only [List.mem_singleton, Prod.mk.injEq] at hcall
    obtain ⟨hp, ho⟩ := hcall
    rw [applySelection_cases, if_neg hne.1, if_neg hne.2, ← hp, ← ho, hok]

/-- Every `SelectLine` call of `applySelection` follows an apply call that succeeded, happens
while a range is being selected, and selects the first line of the range. -/
theorem selectLineCalls_applySelection {σ : Type} (self : StagingController) (E : StagingEnv σ)
    (state : σ) (reverse : Bool) (i : Int)
    (hi : i ∈ selectLineCalls (applySelection self E state reverse).events) :
    (∃ p o, applyCalls (applySelection self E state reverse).events = [(p, o)] ∧
      E.ApplyPatch p o = none) ∧
    E.ops.SelectingRange state = true ∧ i = (E.ops.SelectedRange state).1 := by
  rw [applyCalls_applySelection]
  rw [applySelection_cases] at hi
  by_cases hp : FilePath E = ""
  · simp [hp, selectLineCalls] at hi
  · simp only [hp, if_false, false_or] at hi ⊢
    split at hi
    · simp [selectLineCalls] at hi
    · rename_i hpatch
      rw [if_neg hpatch]
      split at hi
      · simp [selectLineCalls] at hi
      · rename_i hok
        split at hi
        · rename_i hsel
          simp [selectLineCalls] at hi
          exact ⟨⟨_, _, rfl, hok⟩, hsel, hi⟩
        · simp [selectLineCalls] at hi

/-- The state after `applySelection` is the state before, unless a `SelectLine` call was made. -/
theorem state_applySelection {σ : Type} (self : StagingController) (E : StagingEnv σ)
    (state : σ) (reverse : Bool) :
    ((applySelection self E state reverse).state = state ∧
      selectLineCalls (applySelection self E state reverse).events = []) ∨
    ((applySelection self E state reverse).state =
        E.ops.SelectLine state (E.ops.SelectedRange state).1 ∧
      selectLineCalls (applySelection self E state reverse).events =
        [(E.ops.SelectedRange state).1]) := by
  rw [applySelection_cases]
  by_cases hp : FilePath E = ""
  · simp [hp, selectLineCalls]
  · simp only [hp, if_false]
    split
    · simp [selectLineCalls]
    · split
      · simp [selectLineCalls]
      · split <;> simp [selectLineCalls]

/-- C3 (counterexample): the apply collaborator rejects the patch and `c.Error` answers nil
after showing the error; then `applySelection` returns nil, not an error, and
`applySelectionAndRefresh` goes on to trigger a refresh. -/
theorem applySelection_rejected_may_return_nil_and_refresh :
    (demoEnv (some "rejected") (fun _ => none)).ApplyPatch "diff" ⟨true, false⟩ =
      some "rejected" ∧
    applyCalls (applySelection ⟨false⟩ (demoEnv (some "rejected") (fun _ => none))
      demoState true).events = [("diff", ⟨true, false⟩)] ∧
    (applySelection ⟨false⟩ (demoEnv (some "rejected") (fun _ => none))
      demoState true).ret = none ∧
    (applySelectionAndRefresh ⟨false⟩ (demoEnv (some "rejected") (fun _ => none))
      demoState true).ret = none ∧
    refreshCount (applySelectionAndRefresh ⟨false⟩ (demoEnv (some "rejected") (fun _ => none))
      demoState true).events = 1 := by
  decide

/-- C3 (amended): if the apply collaborator rejects the patch, applySelection returns what
c.Error returns for the apply error, has invoked the apply collaborator exactly once, and leaves
the selection state unchanged, SelectLine not being called; applySelectionAndRefresh returns
that same value without triggering a refresh whenever it is a non-nil error, and goes on to the
refresh when c.Error answered nil.  Only on success, and only when a range is being selected, is
the selection collapsed to the first line of the range. -/
theorem applySelection_rejected_patch_leaves_selection {σ : Type} (self : StagingController)
    (E : StagingEnv σ) (state : σ) (reverse : Bool) :
    (∀ (p : String) (o : ApplyPatchOpts) (err : String),
      (p, o) ∈ applyCalls (applySelection self E state reverse).events →
      E.ApplyPatch p o = some err →
        (applySelection self E state reverse).ret = E.Error err ∧
        applyCalls (applySelection self E state reverse).events = [(p, o)] ∧
        (applySelection self E state reverse).state = state ∧
        selectLineCalls (applySelection self E state reverse).events = [] ∧
        applyCalls (applySelectionAndRefresh self E state reverse).events = [(p, o)] ∧
        (applySelectionAndRefresh self E state reverse).state = state ∧
        selectLineCalls (applySelectionAndRefresh self E state reverse).events = [] ∧
        (E.Error err ≠ none →
          (applySelectionAndRefresh self E state reverse).ret = E.Error err ∧
          refreshCount (applySelectionAndRefresh self E state reverse).events = 0) ∧
        (E.Error err = none →
          (applySelectionAndRefresh self E state reverse).ret = E.Refresh ∧
          refreshCount (applySelectionAndRefresh self E state reverse).events = 1)) ∧
    (∀ i ∈ selectLineCalls (applySelection self E state reverse).events,
      (∃ p o, applyCalls (applySelection self E state reverse).events = [(p, o)] ∧
        E.ApplyPatch p o = none) ∧
      E.ops.SelectingRange state = true ∧ i = (E.ops.SelectedRange state).1) ∧
    (((applySelection self E state reverse).state = state ∧
        selectLineCalls (applySelection self E state reverse).events = []) ∨
      ((applySelection self E state reverse).state =
          E.ops.SelectLine state (E.ops.SelectedRange state).1 ∧
        selectLineCalls (applySelection self E state reverse).events =
          [(E.ops.SelectedRange state).1])) ∧
    (∀ (p : String) (o : ApplyPatchOpts),
      (p, o) ∈ applyCalls (applySelection self E state reverse).events →
      E.ApplyPatch p o = none → E.ops.SelectingRange state = true →
        (applySelection self E state reverse).state =
          E.ops.SelectLine state (E.ops.SelectedRange state).1 ∧
        selectLineCalls (applySelection self E state reverse).events =
          [(E.ops.SelectedRange state).1]) := by
  refine ⟨?_, selectLineCalls_applySelection self E state reverse,
    state_applySelection self E state reverse, ?_⟩
  · intro p o err hcall hrej
    have h := applySelection_of_rejected self E state reverse p o err hcall hrej
    have hret : (applySelection self E state reverse).ret = E.Error err := by rw [h]
    refine ⟨hret, by rw [h]; simp [applyCalls], by rw [h], by rw [h]; simp [selectLineCalls],
      ?_, ?_, ?_, ?_, ?_⟩
    · rw [applyCalls_applySelectionAndRefresh, h]; simp [applyCalls]
    · rw [state_applySelectionAndRefresh, h]
    · cases he : E.Error err with
      | none =>
        rw [applySelectionAndRefresh_of_nil self E state reverse (hret.trans he), h]
        simp [selectLineCalls]
      | some e =>
        rw [applySelectionAndRefresh_of_error self E state reverse e (hret.trans he), h]
        simp [selectLineCalls]
    · intro hne
      cases he : E.Error err with
      | none => exact absurd he hne
      | some e =>
        rw [applySelectionAndRefresh_of_error self E state reverse e (hret.trans he)]
        exact ⟨rfl, refreshCount_applySelection self E state reverse⟩
    · intro he
      rw [applySelectionAndRefresh_of_nil self E state reverse (hret.trans he)]
      refine ⟨rfl, ?_⟩
      simp only [refreshCount_append, refreshCount_applySelection, refreshCount]
  · intro p o hcall hok hsel
    have h := applySelection_of_applied self E state reverse p o hcall hok
    rw [if_pos hsel] at h
    rw [h]
    simp [selectLineCalls]

/-- C3 (amended) at an example: the patch is rejected and `c.Error` hands the error back; the
error is returned, apply ran once, the range selection stays, and nothing is refreshed. -/
theorem applySelection_rejected_patch_example :
    (applySelection ⟨false⟩ (demoEnv (some "rejected") (fun e => some e)) demoState true).ret =
      some "rejected" ∧
    (applySelection ⟨false⟩ (demoEnv (some "rejected") (fun e => some e)) demoState true).state =
      demoState ∧
    (applySelectionAndRefresh ⟨false⟩ (demoEnv (some "rejected") (fun e => some e))
      demoState true).ret = some "rejected" ∧
    refreshCount (applySelectionAndRefresh ⟨false⟩ (demoEnv (some "rejected") (fun e => some e))
      demoState true).events = 0 :=
  have h := (applySelection_rejected_patch_leaves_selection ⟨false⟩
    (demoEnv (some "rejected") (fun e => some e)) demoState true).1 "diff" ⟨true, false⟩
    "rejected" (by decide) rfl
  ⟨h.1, h.2.2.1, (h.2.2.2.2.2.2.2.1 (by decide)).1, (h.2.2.2.2.2.2.2.1 (by decide)).2⟩

/-- In the staged panel, or with the unstage warning switched off, `ResetSelection` runs its
closure at once. -/
theorem ResetSelection_direct {σ : Type} (self : StagingController) (E : StagingEnv σ)
    (state : σ) (h : self.staged = true ∨ E.SkipUnstageLineWarning = true) :
    ResetSelection self E state = ⟨applySelectionAndRefresh self E state true, none⟩ := by
  unfold ResetSelection
  rcases h with h | h <;> simp [h]

/-- In the unstaged panel with the unstage warning on, `ResetSelection` asks for confirmation
and hands its closure over as `HandleConfirm`. -/
theorem ResetSelection_confirm {σ : Type} (self : StagingController) (E : StagingEnv σ)
    (state : σ) (h1 : self.staged = false) (h2 : E.SkipUnstageLineWarning = false) :
    ResetSelection self E state =
      ⟨⟨E.Confirm, state, [.Confirm E.Tr.UnstageLinesTitle E.Tr.UnstageLinesPrompt]⟩,
        some (fun E1 s1 => applySelectionAndRefresh self E1 s1 true)⟩ := by
  unfold ResetSelection
  simp [h1, h2]

/-- The apply call of `editHunk` once the patch is saved, edited and read back. -/
theorem applyCalls_editHunk_of_edited {σ : Type} (self : StagingController) (E : StagingEnv σ)
    (state : σ) (tmp edited : String) (hp : FilePath E ≠ "")
    (hs : E.SaveTemporaryPatch (E.FormatPlain (E.ops.GetDiff state)
      ⟨self.staged, E.ExpandRange (E.ops.CurrentHunkBounds state).1
        (E.ops.CurrentHunkBounds state).2, FilePath E⟩) = .ok tmp)
    (he : E.EditFileAtLineAndWait tmp (wrapInt64 (wrapInt64
      (E.ops.GetSelectedLineIdx state - (E.ops.CurrentHunkBounds state).1) + 3)) = none)
    (hc : E.Cat tmp = .ok edited) :
    applyCalls (editHunk self E state).events =
      [(E.FormatPlain edited
          ⟨false, E.ExpandRange 0 (wrapInt64 (countNewlines edited + 1)), FilePath E⟩,
        ⟨self.staged, true⟩)] := by
  unfold editHunk
  simp only [hp, if_false, hs, he, hc]
  split <;> simp [applyCalls]

/-- C6: for every panel (staged true or false) and every reverse flag, applySelection(reverse)
transforms with Reverse = reverse and calls the apply collaborator with Reverse = reverse and
Cached = (not reverse) or staged, and it does make that one call when a file is selected and the
patch text is non-empty.  Hence ToggleStaged applies with Reverse = staged and Cached = true,
ResetSelection (run at once or from the confirmation) applies with Reverse = true and
Cached = staged, editHunk applies with Cached = true, and a call with Cached = false can only
be one of ResetSelection in the unstaged panel.  Each of them does make its call: ToggleStaged
and the closure of ResetSelection make exactly one apply call when a file is selected and the
patch text is non-empty; ResetSelection runs the closure at once in the staged panel or with the
unstage warning off and otherwise registers it as the confirmation handler; editHunk makes
exactly one apply call once the patch is saved, edited and read back. -/
theorem applySelection_reverse_and_cached_flags {σ : Type} (self : StagingController)
    (E : StagingEnv σ) (state : σ) :
    (∀ reverse : Bool,
      (∀ t ∈ transformCalls (applySelection self E state reverse).events,
        t.Reverse = reverse) ∧
      (∀ call ∈ applyCalls (applySelection self E state reverse).events,
        call.2.Reverse = reverse ∧ call.2.Cached = (!reverse || self.staged)) ∧
      (FilePath E ≠ "" →
        E.FormatPlain (E.ops.GetDiff state)
          ⟨reverse, E.ExpandRange (E.ops.SelectedRange state).1 (E.ops.SelectedRange state).2,
            FilePath E⟩ ≠ "" →
        transformCalls (applySelection self E state reverse).events =
          [⟨reverse, E.ExpandRange (E.ops.SelectedRange state).1
            (E.ops.SelectedRange state).2, FilePath E⟩] ∧
        applyCalls (applySelection self E state reverse).events =
          [(E.FormatPlain (E.ops.GetDiff state)
            ⟨reverse, E.ExpandRange (E.ops.SelectedRange state).1
              (E.ops.SelectedRange state).2, FilePath E⟩,
            ⟨reverse, !reverse || self.staged⟩)])) ∧
    (∀ call ∈ applyCalls (ToggleStaged self E state).events,
      call.2.Reverse = self.staged ∧ call.2.Cached = true) ∧
    (∀ call ∈ applyCalls (ResetSelection self E state).run.events,
      call.2.Reverse = true ∧ call.2.Cached = self.staged) ∧
    (∀ (confirmed : StagingEnv σ → σ → StagingRun σ) (E1 : StagingEnv σ) (s1 : σ),
      (ResetSelection self E state).HandleConfirm = some confirmed →
      ∀ call ∈ applyCalls (confirmed E1 s1).events,
        call.2.Reverse = true ∧ call.2.Cached = self.staged) ∧
    (∀ call ∈ applyCalls (editHunk self E state).events,
      call.2.Reverse = self.staged ∧ call.2.Cached = true) ∧
    (self.staged = true →
      ∀ call ∈ applyCalls (ResetSelection self E state).run.events, call.2.Cached = true) ∧
    (FilePath E ≠ "" →
      E.FormatPlain (E.ops.GetDiff state)
        ⟨self.staged, E.ExpandRange (E.ops.SelectedRange state).1
          (E.ops.SelectedRange state).2, FilePath E⟩ ≠ "" →
      applyCalls (ToggleStaged self E state).events =
        [(E.FormatPlain (E.ops.GetDiff state)
          ⟨self.staged, E.ExpandRange (E.ops.SelectedRange state).1
            (E.ops.SelectedRange state).2, FilePath E⟩, ⟨self.staged, true⟩)]) ∧
    (self.staged = true ∨ E.SkipUnstageLineWarning = true →
      (ResetSelection self E state).HandleConfirm = none ∧
      (FilePath E ≠ "" →
        E.FormatPlain (E.ops.GetDiff state)
          ⟨true, E.ExpandRange (E.ops.SelectedRange state).1
            (E.ops.SelectedRange state).2, FilePath E⟩ ≠ "" →
        applyCalls (ResetSelection self E state).run.events =
          [(E.FormatPlain (E.ops.GetDiff state)
            ⟨true, E.ExpandRange (E.ops.SelectedRange state).1
              (E.ops.SelectedRange state).2, FilePath E⟩, ⟨true, self.staged⟩)])) ∧
    (self.staged = false → E.SkipUnstageLineWarning = false →
      (ResetSelection self E state).run.events =
        [.Confirm E.Tr.UnstageLinesTitle E.Tr.UnstageLinesPrompt] ∧
      ∃ confirmed : StagingEnv σ → σ → StagingRun σ,
        (ResetSelection self E state).HandleConfirm = some confirmed ∧
        ∀ (E1 : StagingEnv σ) (s1 : σ), FilePath E1 ≠ "" →
          E1.FormatPlain (E1.ops.GetDiff s1)
            ⟨true, E1.ExpandRange (E1.ops.SelectedRange s1).1
              (E1.ops.SelectedRange s1).2, FilePath E1⟩ ≠ "" →
          applyCalls (confirmed E1 s1).events =
            [(E1.FormatPlain (E1.ops.GetDiff s1)
              ⟨true, E1.ExpandRange (E1.ops.SelectedRange s1).1
                (E1.ops.SelectedRange s1).2, FilePath E1⟩, ⟨true, false⟩)]) ∧
    (∀ tmp edited : String, FilePath E ≠ "" →
      E.SaveTemporaryPatch (E.FormatPlain (E.ops.GetDiff state)
        ⟨self.staged, E.ExpandRange (E.ops.CurrentHunkBounds state).1
          (E.ops.CurrentHunkBounds state).2, FilePath E⟩) = .ok tmp →
      E.EditFileAtLineAndWait tmp (wrapInt64 (wrapInt64
        (E.ops.GetSelectedLineIdx state - (E.ops.CurrentHunkBounds state).1) + 3)) = none →
      E.Cat tmp = .ok edited →
      applyCalls (editHunk self E state).events =
        [(E.FormatPlain edited
            ⟨false, E.ExpandRange 0 (wrapInt64 (countNewlines edited + 1)), FilePath E⟩,
          ⟨self.staged, true⟩)]) := by
  have hone : ∀ (E1 : StagingEnv σ) (s1 : σ) (reverse : Bool), FilePath E1 ≠ "" →
      E1.FormatPlain (E1.ops.GetDiff s1)
        ⟨reverse, E1.ExpandRange (E1.ops.SelectedRange s1).1
          (E1.ops.SelectedRange s1).2, FilePath E1⟩ ≠ "" →
      applyCalls (applySelectionAndRefresh self E1 s1 reverse).events =
        [(E1.FormatPlain (E1.ops.GetDiff s1)
          ⟨reverse, E1.ExpandRange (E1.ops.SelectedRange s1).1
            (E1.ops.SelectedRange s1).2, FilePath E1⟩, ⟨reverse, !reverse || self.staged⟩)] := by
    intro E1 s1 reverse hp hpatch
    rw [applyCalls_applySelectionAndRefresh, applyCalls_applySelection,
      if_neg (by simp [hp, hpatch])]
  have hflags : ∀ (E1 : StagingEnv σ) (s1 : σ) (reverse : Bool),
      ∀ call ∈ applyCalls (applySelection self E1 s1 reverse).events,
        call.2.Reverse = reverse ∧ call.2.Cached = (!reverse || self.staged) := by
    intro E1 s1 reverse call hc
    rw [applyCalls_applySelection] at hc
    split at hc
    · simp at hc
    · simp only [List.mem_singleton] at hc
      rw [hc]
      exact ⟨rfl, rfl⟩
  have hreset : ∀ (E1 : StagingEnv σ) (s1 : σ),
      ∀ call ∈ applyCalls (applySelectionAndRefresh self E1 s1 true).events,
        call.2.Reverse = true ∧ call.2.Cached = self.staged := by
    intro E1 s1 call hc
    rw [applyCalls_applySelectionAndRefresh] at hc
    have h := hflags E1 s1 true call hc
    simpa using h
  have hrun : ∀ call ∈ applyCalls (ResetSelection self E state).run.events,
      call.2.Reverse = true ∧ call.2.Cached = self.staged := by
    intro call hc
    unfold ResetSelection at hc
    split at hc
    · simp [applyCalls] at hc
    · exact hreset E state call hc
  refine ⟨?_, ?_, hrun, ?_, ?_, ?_, ?_, ?_, ?_, ?_⟩
  · intro reverse
    refine ⟨?_, hflags E state reverse, ?_⟩
    · intro t ht
      rw [transformCalls_applySelection] at ht
      split at ht
      · simp at ht
      · simp only [List.mem_singleton] at ht
        rw [ht]
    · intro hp hpatch
      rw [transformCalls_applySelection, applyCalls_applySelection, if_neg hp,
        if_neg (by simp [hp, hpatch])]
      exact ⟨rfl, rfl⟩
  · intro call hc
    unfold ToggleStaged at hc
    rw [applyCalls_applySelectionAndRefresh] at hc
    have h := hflags E state self.staged call hc
    refine ⟨h.1, ?_⟩
    rw [h.2]
    cases self.staged <;> rfl
  · intro confirmed E1 s1 hconf call hc
    unfold ResetSelection at hconf
    split at hconf
    · simp only [Option.some.injEq] at hconf
      rw [← hconf] at hc
      exact hreset E1 s1 call hc
    · simp at hconf
  · intro call hc
    rw [applyCalls_editHunk self E state call hc]
    exact ⟨rfl, rfl⟩
  · intro hst call hc
    rw [(hrun call hc).2, hst]
  · intro hp hpatch
    unfold ToggleStaged
    rw [hone E state self.staged hp hpatch]
    simp
  · intro hor
    rw [ResetSelection_direct self E state hor]
    refine ⟨rfl, ?_⟩
    intro hp hpatch
    rw [hone E state true hp hpatch]
    simp
  · intro h1 h2
    rw [ResetSelection_confirm self E state h1 h2]
    refine ⟨rfl, _, rfl, ?_⟩
    intro E1 s1 hp hpatch
    rw [hone E1 s1 true hp hpatch]
    simp [h1]
  · intro tmp edited hp hs he hc
    exact applyCalls_editHunk_of_edited self E state tmp edited hp hs he hc

/-- C6 at an example, with a file selected and the patch text "diff": applySelection with
reverse = true in the unstaged panel transforms with Reverse = true and applies once with
Reverse = true and Cached = false; ToggleStaged in the staged panel applies once with
Reverse = true and Cached = true; ResetSelection in the staged panel applies at once with
Reverse = true and Cached = true. -/
theorem applySelection_reverse_and_cached_flags_example :
    (transformCalls (applySelection ⟨false⟩ (demoEnv none (fun _ => none))
        demoState true).events = [⟨true, [5, 6, 7], "a.txt"⟩] ∧
      applyCalls (applySelection ⟨false⟩ (demoEnv none (fun _ => none))
        demoState true).events = [("diff", ⟨true, false⟩)]) ∧
    applyCalls (ToggleStaged ⟨true⟩ (demoEnv none (fun _ => none)) demoState).events =
      [("diff", ⟨true, true⟩)] ∧
    applyCalls (ResetSelection ⟨true⟩ (demoEnv none (fun _ => none)) demoState).run.events =
      [("diff", ⟨true, true⟩)] :=
  ⟨((applySelection_reverse_and_cached_flags ⟨false⟩ (demoEnv none (fun _ => none))
      demoState).1 true).2.2 (by decide) (by decide),
    (applySelection_reverse_and_cached_flags ⟨true⟩ (demoEnv none (fun _ => none))
      demoState).2.2.2.2.2.2.1 (by decide) (by decide),
    ((applySelection_reverse_and_cached_flags ⟨true⟩ (demoEnv none (fun _ => none))
      demoState).2.2.2.2.2.2.2.1 (Or.inl rfl)).2 (by decide) (by decide)⟩

/-- C7: a selection that yields no hunks is a safe no-op: whenever the selected file path is
empty, or Parse(diff).Transform(opts).FormatPlain() is the empty string, applySelection returns
nil, does not invoke the apply collaborator, makes no other call than the pure transformation,
and leaves the selection state unchanged; and the apply collaborator is invoked only with a
non-empty patch text. -/
theorem applySelection_without_hunks_is_noop {σ : Type} (self : StagingController)
    (E : StagingEnv σ) (state : σ) (reverse : Bool) :
    ((FilePath E = "" ∨
        E.FormatPlain (E.ops.GetDiff state)
          ⟨reverse, E.ExpandRange (E.ops.SelectedRange state).1 (E.ops.SelectedRange state).2,
            FilePath E⟩ = "") →
      (applySelection self E state reverse).ret = none ∧
      applyCalls (applySelection self E state reverse).events = [] ∧
      (applySelection self E state reverse).state = state ∧
      selectLineCalls (applySelection self E state reverse).events = [] ∧
      (∀ e ∈ (applySelection self E state reverse).events, ∃ t, e = StagingEvent.Transform t)) ∧
    (∀ call ∈ applyCalls (applySelection self E state reverse).events, call.1 ≠ "") := by
  constructor
  · intro h
    rw [applySelection_cases]
    by_cases hp : FilePath E = ""
    · simp [hp, applyCalls, selectLineCalls]
    · have hpatch := h.resolve_left hp
      simp [hp, hpatch, applyCalls, selectLineCalls]
  · intro call hc
    rw [applyCalls_applySelection] at hc
    split at hc
    · simp at hc
    · rename_i hne
      simp only [not_or] at hne
      simp only [List.mem_singleton] at hc
      rw [hc]
      exact hne.2

/-- C7 at an example: the diff is empty, so the formatted patch is empty and nothing is applied
or selected. -/
theorem applySelection_without_hunks_example :
    (applySelection ⟨false⟩ (demoEnv (some "rejected") (fun e => some e))
      ⟨"", 7, 5, true, 4, 9⟩ false).ret = none ∧
    applyCalls (applySelection ⟨false⟩ (demoEnv (some "rejected") (fun e => some e))
      ⟨"", 7, 5, true, 4, 9⟩ false).events = [] ∧
    (applySelection ⟨false⟩ (demoEnv (some "rejected") (fun e => some e))
      ⟨"", 7, 5, true, 4, 9⟩ false).state = ⟨"", 7, 5, true, 4, 9⟩ :=
  have h := (applySelection_without_hunks_is_noop ⟨false⟩
    (demoEnv (some "rejected") (fun e => some e)) ⟨"", 7, 5, true, 4, 9⟩ false).1
    (Or.inr (by decide))
  ⟨h.1, h.2.1, h.2.2.1⟩

/-! ## Theorems: custom patch options menu action -/

/-- C5: when the patch builder is active, Call hands to the menu the list built by append and
index splicing, and for every combination of inputs that list equals the declarative ordered
list [c, m?, a, r, d?, i?, n?, y], where d, i, n are present iff R (CanRebase and working-tree
state REBASE_MODE_NONE) and m is present iff R, the current context is LocalCommits, a commit is
selected and its Sha differs from PatchBuilder.To.  The key sequence is one of [c,a,r,y],
[c,a,r,d,i,n,y], [c,m,a,r,d,i,n,y]; reset patch is first, copy patch to clipboard is last, and
removing the spliced entry at index 1 gives back the unspliced list. -/
theorem Call_menu_equals_declarative_list (E : PatchEnv) :
    Call.menuItems E = declarativeMenu E ∧
    (E.Active = true → Call E = ⟨E.Menu, [.Menu E.Tr.PatchOptionsTitle (declarativeMenu E)]⟩) ∧
    (Call.menuItems E).map (fun item => item.Key) =
      (if E.CanRebase = true ∧ E.WorkingTreeState = .REBASE_MODE_NONE then
        if E.CurrentContextKey = E.LocalCommitsKey ∧
            ∃ c, E.LocalCommitsSelected = some c ∧ c.Sha ≠ E.To then
          ['c', 'm', 'a', 'r', 'd', 'i', 'n', 'y']
        else ['c', 'a', 'r', 'd', 'i', 'n', 'y']
      else ['c', 'a', 'r', 'y']) ∧
    (Call.menuItems E).head? = some ⟨"reset patch", .Reset, 'c'⟩ ∧
    (Call.menuItems E).getLast? = some ⟨"copy patch to clipboard", .copyPatchToClipboard, 'y'⟩ ∧
    (E.CanRebase = true ∧ E.WorkingTreeState = .REBASE_MODE_NONE →
      ((Call.menuItems E).filter (fun item => item.Key != 'm')) =
        [⟨"reset patch", .Reset, 'c'⟩,
         ⟨"apply patch", .handleApplyPatch false, 'a'⟩,
         ⟨"apply patch in reverse", .handleApplyPatch true, 'r'⟩,
         ⟨"remove patch from original commit (" ++ E.To ++ ")", .handleDeletePatchFromCommit,
           'd'⟩,
         ⟨"move patch out into index", .handleMovePatchIntoWorkingTree, 'i'⟩,
         ⟨"move patch into new commit", .handlePullPatchIntoNewCommit, 'n'⟩,
         ⟨"copy patch to clipboard", .copyPatchToClipboard, 'y'⟩]) := by
  have hmenu : Call.menuItems E = declarativeMenu E := by
    unfold Call.menuItems declarativeMenu
    cases hcr : E.CanRebase <;> cases hw : E.WorkingTreeState <;>
      cases hsel : E.LocalCommitsSelected <;>
      by_cases hctx : E.CurrentContextKey = E.LocalCommitsKey <;>
      simp [hctx]
    rename_i c
    by_cases hsha : E.To = c.Sha
    · simp [hsha]
    · have hsha2 : ¬ c.Sha = E.To := fun h => hsha h.symm
      simp [hsha, hsha2]
  refine ⟨hmenu, ?_, ?_, ?_, ?_, ?_⟩
  · intro hact
    unfold Call
    rw [hmenu]
    simp [hact]
  · unfold Call.menuItems
    cases hcr : E.CanRebase <;> cases hw : E.WorkingTreeState <;>
      cases hsel : E.LocalCommitsSelected <;>
      by_cases hctx : E.CurrentContextKey = E.LocalCommitsKey <;>
      simp [hctx]
    rename_i c
    by_cases hsha : E.To = c.Sha
    · simp [hsha]
    · have hsha2 : ¬ c.Sha = E.To := fun h => hsha h.symm
      simp [hsha, hsha2]
  · unfold Call.menuItems
    cases hcr : E.CanRebase <;> cases hw : E.WorkingTreeState <;>
      cases hsel : E.LocalCommitsSelected <;>
      by_cases hctx : E.CurrentContextKey = E.LocalCommitsKey <;>
      simp [hctx]
    split <;> simp
  · unfold Call.menuItems
    cases hcr : E.CanRebase <;> cases hw : E.WorkingTreeState <;>
      cases hsel : E.LocalCommitsSelected <;>
      by_cases hctx : E.CurrentContextKey = E.LocalCommitsKey <;>
      simp [hctx]
  · rintro ⟨hcr, hw⟩
    unfold Call.menuItems
    cases hsel : E.LocalCommitsSelected <;>
      by_cases hctx : E.CurrentContextKey = E.LocalCommitsKey <;>
      simp [hctx, hcr, hw]
    split <;> simp

/-- C5 at an example: an active builder against commit b, no rebase in progress, the local
commits context focused on commit a: the menu is the declarative list with all eight keys. -/
theorem Call_menu_example :
    Call (demoPatchEnv .REBASE_MODE_NONE false) =
      ⟨none, [.Menu "Patch options" (declarativeMenu (demoPatchEnv .REBASE_MODE_NONE false))]⟩ ∧
    (declarativeMenu (demoPatchEnv .REBASE_MODE_NONE false)).map (fun item => item.Key) =
      ['c', 'm', 'a', 'r', 'd', 'i', 'n', 'y'] :=
  ⟨(Call_menu_equals_declarative_list (demoPatchEnv .REBASE_MODE_NONE false)).2.1 rfl,
    by decide⟩

/-- When validation fails, each rewrite handler stops after the error message. -/
theorem validateNormalWorkingTreeState_of_rebasing (E : PatchEnv)
    (h : E.WorkingTreeState ≠ .REBASE_MODE_NONE) :
    validateNormalWorkingTreeState E =
      (false, ⟨E.ErrorMsg E.Tr.CantPatchWhileRebasingError,
        [.ErrorMsg E.Tr.CantPatchWhileRebasingError]⟩) := by
  simp [validateNormalWorkingTreeState, h]

theorem validateNormalWorkingTreeState_of_normal (E : PatchEnv)
    (h : E.WorkingTreeState = .REBASE_MODE_NONE) :
    validateNormalWorkingTreeState E = (true, ⟨none, []⟩) := by
  simp [validateNormalWorkingTreeState, h]

/-- The calls of `returnFocusFromPatchExplorerIfNecessary` are at most one `Escape`. -/
theorem returnFocus_events (E : PatchEnv) :
    (returnFocusFromPatchExplorerIfNecessary E).events = [] ∨
    (returnFocusFromPatchExplorerIfNecessary E).events = [.Escape] := by
  unfold returnFocusFromPatchExplorerIfNecessary
  split <;> simp

theorem stashArgs_append (l1 l2 : List PatchEvent) :
    stashArgs (l1 ++ l2) = stashArgs l1 ++ stashArgs l2 := by
  induction l1 with
  | nil => rfl
  | cons e rest ih => cases e <;> simp [stashArgs, ih]

theorem stashArgs_returnFocus (E : PatchEnv) :
    stashArgs (returnFocusFromPatchExplorerIfNecessary E).events = [] := by
  rcases returnFocus_events E with h | h <;> rw [h] <;> rfl

theorem filter_isRebaseOp_returnFocus (E : PatchEnv) :
    (returnFocusFromPatchExplorerIfNecessary E).events.filter PatchEvent.isRebaseOp = [] := by
  rcases returnFocus_events E with h | h <;> rw [h] <;> rfl

/-- The stash arguments of the closure `pull`: exactly the one it was given. -/
theorem stashArgs_pull (E : PatchEnv) (stash : Bool) :
    stashArgs (handleMovePatchIntoWorkingTree.pull E stash).events = [stash] := by
  simp [handleMovePatchIntoWorkingTree.pull, WithWaitingStatus, stashArgs]

/-- The three ways `handleMovePatchIntoWorkingTree` can go once validation has passed. -/
theorem handleMovePatchIntoWorkingTree_of_normal (E : PatchEnv)
    (h : E.WorkingTreeState = .REBASE_MODE_NONE) :
    (∃ err, (returnFocusFromPatchExplorerIfNecessary E).ret = some err ∧
      (handleMovePatchIntoWorkingTree E).run =
        ⟨some err, (returnFocusFromPatchExplorerIfNecessary E).events⟩ ∧
      (handleMovePatchIntoWorkingTree E).HandleConfirm = none) ∨
    ((returnFocusFromPatchExplorerIfNecessary E).ret = none ∧ E.IsWorkingTreeDirty = true ∧
      (handleMovePatchIntoWorkingTree E).run =
        ⟨E.Confirm, (returnFocusFromPatchExplorerIfNecessary E).events ++
          [.Confirm E.Tr.MustStashTitle E.Tr.MustStashWarning]⟩ ∧
      (handleMovePatchIntoWorkingTree E).HandleConfirm =
        some (fun E1 => handleMovePatchIntoWorkingTree.pull E1 true)) ∨
    ((returnFocusFromPatchExplorerIfNecessary E).ret = none ∧ E.IsWorkingTreeDirty = false ∧
      (handleMovePatchIntoWorkingTree E).run =
        ⟨(handleMovePatchIntoWorkingTree.pull E false).ret,
          (returnFocusFromPatchExplorerIfNecessary E).events ++
            (handleMovePatchIntoWorkingTree.pull E false).events⟩ ∧
      (handleMovePatchIntoWorkingTree E).HandleConfirm = none) := by
  unfold handleMovePatchIntoWorkingTree
  rw [validateNormalWorkingTreeState_of_normal E h]
  cases hf : (returnFocusFromPatchExplorerIfNecessary E).ret with
  | some err => left; exact ⟨err, rfl, by simp [hf], by simp [hf]⟩
  | none =>
    right
    cases hd : E.IsWorkingTreeDirty with
    | true => left; simp [hf, hd]
    | false => right; simp [hf, hd]

/-- When validation fails, `handleMovePatchIntoWorkingTree` stops after the error message. -/
theorem handleMovePatchIntoWorkingTree_of_rebasing (E : PatchEnv)
    (h : E.WorkingTreeState ≠ .REBASE_MODE_NONE) :
    (handleMovePatchIntoWorkingTree E).run =
      ⟨E.ErrorMsg E.Tr.CantPatchWhileRebasingError,
        [.ErrorMsg E.Tr.CantPatchWhileRebasingError]⟩ ∧
    (handleMovePatchIntoWorkingTree E).HandleConfirm = none := by
  unfold handleMovePatchIntoWorkingTree
  rw [validateNormalWorkingTreeState_of_rebasing E h]
  simp

/-- C2: handleMovePatchIntoWorkingTree passes stash = true to MovePatchIntoIndex exactly when the
working tree is dirty and stash = false exactly when it is clean.  Every MovePatchIntoIndex call
made before the handler returns has stash = false and is made on a clean tree; on a dirty tree
the handler itself makes no such call, and the call is made only by the confirmation handler,
with stash = true.  On a clean tree no confirmation handler is registered.  When the handler
gets past the working-tree check and the focus return, the clean tree gets exactly one call with
stash = false and the dirty tree exactly one confirmation handler. -/
theorem handleMovePatchIntoWorkingTree_stash_iff_dirty (E : PatchEnv) :
    (∀ stash ∈ stashArgs (handleMovePatchIntoWorkingTree E).run.events,
      stash = false ∧ E.IsWorkingTreeDirty = false) ∧
    (E.IsWorkingTreeDirty = true →
      stashArgs (handleMovePatchIntoWorkingTree E).run.events = []) ∧
    (∀ (confirmed : PatchEnv → PatchRun) (E1 : PatchEnv),
      (handleMovePatchIntoWorkingTree E).HandleConfirm = some confirmed →
        E.IsWorkingTreeDirty = true ∧ stashArgs (confirmed E1).events = [true]) ∧
    (E.IsWorkingTreeDirty = false → (handleMovePatchIntoWorkingTree E).HandleConfirm = none) ∧
    (E.WorkingTreeState = .REBASE_MODE_NONE →
      (returnFocusFromPatchExplorerIfNecessary E).ret = none →
        (E.IsWorkingTreeDirty = false →
          stashArgs (handleMovePatchIntoWorkingTree E).run.events = [false]) ∧
        (E.IsWorkingTreeDirty = true →
          ∃ confirmed, (handleMovePatchIntoWorkingTree E).HandleConfirm = some confirmed ∧
            (handleMovePatchIntoWorkingTree E).run.events =
              (returnFocusFromPatchExplorerIfNecessary E).events ++
                [.Confirm E.Tr.MustStashTitle E.Tr.MustStashWarning])) := by
  by_cases hw : E.WorkingTreeState = .REBASE_MODE_NONE
  · rcases handleMovePatchIntoWorkingTree_of_normal E hw with
      ⟨err, hf, hrun, hconf⟩ | ⟨hf, hd, hrun, hconf⟩ | ⟨hf, hd, hrun, hconf⟩
    · rw [hrun, hconf]
      simp [stashArgs_returnFocus, hf]
    · rw [hrun, hconf]
      simp [stashArgs_returnFocus, stashArgs_append, stashArgs, hd]
      intro confirmed E1 hc
      rw [← hc]
      exact stashArgs_pull E1 true
    · rw [hrun, hconf]
      simp [stashArgs_returnFocus, stashArgs_append, stashArgs, hd, stashArgs_pull]
  · obtain ⟨hrun, hconf⟩ := handleMovePatchIntoWorkingTree_of_rebasing E hw
    rw [hrun, hconf]
    simp [stashArgs, hw]

/-- C2 at an example: on a dirty tree the handler only asks for confirmation and registers the
handler; on a clean tree it calls MovePatchIntoIndex once with stash = false. -/
theorem handleMovePatchIntoWorkingTree_stash_example :
    stashArgs (handleMovePatchIntoWorkingTree (demoPatchEnv .REBASE_MODE_NONE false)).run.events =
      [false] :=
  ((handleMovePatchIntoWorkingTree_stash_iff_dirty (demoPatchEnv .REBASE_MODE_NONE false)).2.2.2.2
    rfl rfl).1 rfl

/-- The run of `handleDeletePatchFromCommit` once validation has passed. -/
theorem handleDeletePatchFromCommit_of_normal (E : PatchEnv)
    (h : E.WorkingTreeState = .REBASE_MODE_NONE) :
    handleDeletePatchFromCommit E =
      match (returnFocusFromPatchExplorerIfNecessary E).ret with
      | some err => ⟨some err, (returnFocusFromPatchExplorerIfNecessary E).events⟩
      | none =>
        ⟨E.WithWaitingStatus (E.CheckMergeOrRebase
            (E.DeletePatchesFromCommit E.Commits (getPatchCommitIndex E))),
          (returnFocusFromPatchExplorerIfNecessary E).events ++
            [.WithWaitingStatus E.Tr.RebasingStatus, .LogAction E.Tr.RemovePatchFromCommit,
             .DeletePatchesFromCommit E.Commits (getPatchCommitIndex E),
             .CheckMergeOrRebase (E.DeletePatchesFromCommit E.Commits
              (getPatchCommitIndex E))]⟩ := by
  unfold handleDeletePatchFromCommit
  rw [validateNormalWorkingTreeState_of_normal E h]
  simp only [Bool.not_true, Bool.false_eq_true, if_false, WithWaitingStatus]

/-- The run of `handleMovePatchToSelectedCommit` once validation has passed. -/
theorem handleMovePatchToSelectedCommit_of_normal (E : PatchEnv)
    (h : E.WorkingTreeState = .REBASE_MODE_NONE) :
    handleMovePatchToSelectedCommit E =
      match (returnFocusFromPatchExplorerIfNecessary E).ret with
      | some err => ⟨some err, (returnFocusFromPatchExplorerIfNecessary E).events⟩
      | none =>
        ⟨E.WithWaitingStatus (E.CheckMergeOrRebase
            (E.MovePatchToSelectedCommit E.Commits (getPatchCommitIndex E)
              E.LocalCommitsSelectedLineIdx)),
          (returnFocusFromPatchExplorerIfNecessary E).events ++
            [.WithWaitingStatus E.Tr.RebasingStatus, .LogAction E.Tr.MovePatchToSelectedCommit,
             .MovePatchToSelectedCommit E.Commits (getPatchCommitIndex E)
              E.LocalCommitsSelectedLineIdx,
             .CheckMergeOrRebase (E.MovePatchToSelectedCommit E.Commits
              (getPatchCommitIndex E) E.LocalCommitsSelectedLineIdx)]⟩ := by
  unfold handleMovePatchToSelectedCommit
  rw [validateNormalWorkingTreeState_of_normal E h]
  simp only [Bool.not_true, Bool.false_eq_true, if_false, WithWaitingStatus]

/-- The run of `handlePullPatchIntoNewCommit` once validation has passed. -/
theorem handlePullPatchIntoNewCommit_of_normal (E : PatchEnv)
    (h : E.WorkingTreeState = .REBASE_MODE_NONE) :
    handlePullPatchIntoNewCommit E =
      match (returnFocusFromPatchExplorerIfNecessary E).ret with
      | some err => ⟨some err, (returnFocusFromPatchExplorerIfNecessary E).events⟩
      | none =>
        ⟨E.WithWaitingStatus (E.CheckMergeOrRebase
            (E.PullPatchIntoNewCommit E.Commits (getPatchCommitIndex E))),
          (returnFocusFromPatchExplorerIfNecessary E).events ++
            [.WithWaitingStatus E.Tr.RebasingStatus, .LogAction E.Tr.MovePatchIntoNewCommit,
             .PullPatchIntoNewCommit E.Commits (getPatchCommitIndex E),
             .CheckMergeOrRebase (E.PullPatchIntoNewCommit E.Commits
              (getPatchCommitIndex E))]⟩ := by
  unfold handlePullPatchIntoNewCommit
  rw [validateNormalWorkingTreeState_of_normal E h]
  simp only [Bool.not_true, Bool.false_eq_true, if_false, WithWaitingStatus]

/-- When validation fails, the three handlers without a confirmation stop after the error
message. -/
theorem handlers_of_rebasing (E : PatchEnv) (h : E.WorkingTreeState ≠ .REBASE_MODE_NONE) :
    handleDeletePatchFromCommit E =
      ⟨E.ErrorMsg E.Tr.CantPatchWhileRebasingError,
        [.ErrorMsg E.Tr.CantPatchWhileRebasingError]⟩ ∧
    handleMovePatchToSelectedCommit E =
      ⟨E.ErrorMsg E.Tr.CantPatchWhileRebasingError,
        [.ErrorMsg E.Tr.CantPatchWhileRebasingError]⟩ ∧
    handlePullPatchIntoNewCommit E =
      ⟨E.ErrorMsg E.Tr.CantPatchWhileRebasingError,
        [.ErrorMsg E.Tr.CantPatchWhileRebasingError]⟩ := by
  unfold handleDeletePatchFromCommit handleMovePatchToSelectedCommit
    handlePullPatchIntoNewCommit
  rw [validateNormalWorkingTreeState_of_rebasing E h]
  simp

/-- C8: each of the four history-rewrite handlers invokes its PatchBuilder rebase operation only
if the working-tree state is REBASE_MODE_NONE at entry.  If the state is anything else the
handler returns the result of the CantPatchWhileRebasingError message and makes no other call:
neither a rebase operation nor the Escape of the focus-return helper, and no confirmation
handler is registered.  If the state is REBASE_MODE_NONE and the focus return succeeds, each
handler reaches its own rebase operation (for the move into the working tree: at once on a clean
tree, from the confirmation handler on a dirty one). -/
theorem rewrite_handlers_only_in_normal_working_tree_state (E : PatchEnv) :
    (E.WorkingTreeState ≠ .REBASE_MODE_NONE →
      handleDeletePatchFromCommit E =
        ⟨E.ErrorMsg E.Tr.CantPatchWhileRebasingError,
          [.ErrorMsg E.Tr.CantPatchWhileRebasingError]⟩ ∧
      handleMovePatchToSelectedCommit E =
        ⟨E.ErrorMsg E.Tr.CantPatchWhileRebasingError,
          [.ErrorMsg E.Tr.CantPatchWhileRebasingError]⟩ ∧
      (handleMovePatchIntoWorkingTree E).run =
        ⟨E.ErrorMsg E.Tr.CantPatchWhileRebasingError,
          [.ErrorMsg E.Tr.CantPatchWhileRebasingError]⟩ ∧
      (handleMovePatchIntoWorkingTree E).HandleConfirm = none ∧
      handlePullPatchIntoNewCommit E =
        ⟨E.ErrorMsg E.Tr.CantPatchWhileRebasingError,
          [.ErrorMsg E.Tr.CantPatchWhileRebasingError]⟩) ∧
    (∀ e, (e ∈ (handleDeletePatchFromCommit E).events ∨
          e ∈ (handleMovePatchToSelectedCommit E).events ∨
          e ∈ (handleMovePatchIntoWorkingTree E).run.events ∨
          e ∈ (handlePullPatchIntoNewCommit E).events) →
        (e.isRebaseOp = true ∨ e = .Escape) →
        E.WorkingTreeState = .REBASE_MODE_NONE) ∧
    ((handleMovePatchIntoWorkingTree E).HandleConfirm ≠ none →
      E.WorkingTreeState = .REBASE_MODE_NONE) ∧
    (E.WorkingTreeState = .REBASE_MODE_NONE →
      (returnFocusFromPatchExplorerIfNecessary E).ret = none →
        (handleDeletePatchFromCommit E).events.filter PatchEvent.isRebaseOp =
          [.DeletePatchesFromCommit E.Commits (getPatchCommitIndex E)] ∧
        (handleMovePatchToSelectedCommit E).events.filter PatchEvent.isRebaseOp =
          [.MovePatchToSelectedCommit E.Commits (getPatchCommitIndex E)
            E.LocalCommitsSelectedLineIdx] ∧
        (handlePullPatchIntoNewCommit E).events.filter PatchEvent.isRebaseOp =
          [.PullPatchIntoNewCommit E.Commits (getPatchCommitIndex E)] ∧
        (E.IsWorkingTreeDirty = false →
          (handleMovePatchIntoWorkingTree E).run.events.filter PatchEvent.isRebaseOp =
            [.MovePatchIntoIndex E.Commits (getPatchCommitIndex E) false]) ∧
        (E.IsWorkingTreeDirty = true →
          ∃ confirmed, (handleMovePatchIntoWorkingTree E).HandleConfirm = some confirmed ∧
            ∀ E1, (confirmed E1).events.filter PatchEvent.isRebaseOp =
              [.MovePatchIntoIndex E1.Commits (getPatchCommitIndex E1) true])) := by
  have hstop : E.WorkingTreeState ≠ .REBASE_MODE_NONE →
      handleDeletePatchFromCommit E =
        ⟨E.ErrorMsg E.Tr.CantPatchWhileRebasingError,
          [.ErrorMsg E.Tr.CantPatchWhileRebasingError]⟩ ∧
      handleMovePatchToSelectedCommit E =
        ⟨E.ErrorMsg E.Tr.CantPatchWhileRebasingError,
          [.ErrorMsg E.Tr.CantPatchWhileRebasingError]⟩ ∧
      (handleMovePatchIntoWorkingTree E).run =
        ⟨E.ErrorMsg E.Tr.CantPatchWhileRebasingError,
          [.ErrorMsg E.Tr.CantPatchWhileRebasingError]⟩ ∧
      (handleMovePatchIntoWorkingTree E).HandleConfirm = none ∧
      handlePullPatchIntoNewCommit E =
        ⟨E.ErrorMsg E.Tr.CantPatchWhileRebasingError,
          [.ErrorMsg E.Tr.CantPatchWhileRebasingError]⟩ := by
    intro h
    obtain ⟨h1, h2, h3⟩ := handlers_of_rebasing E h
    obtain ⟨h4, h5⟩ := handleMovePatchIntoWorkingTree_of_rebasing E h
    exact ⟨h1, h2, h4, h5, h3⟩
  refine ⟨hstop, ?_, ?_, ?_⟩
  · intro e hmem hkind
    by_contra hw
    obtain ⟨h1, h2, h3, _, h5⟩ := hstop hw
    rw [h1, h2, h3, h5] at hmem
    simp only [List.mem_singleton, or_self] at hmem
    rw [hmem] at hkind
    simp [PatchEvent.isRebaseOp] at hkind
  · intro hconf
    by_contra hw
    exact hconf (hstop hw).2.2.2.1
  · intro hw hf
    rw [handleDeletePatchFromCommit_of_normal E hw,
      handleMovePatchToSelectedCommit_of_normal E hw,
      handlePullPatchIntoNewCommit_of_normal E hw, hf]
    refine ⟨?_, ?_, ?_, ?_, ?_⟩
    · simp [List.filter_append, filter_isRebaseOp_returnFocus, PatchEvent.isRebaseOp]
    · simp [List.filter_append, filter_isRebaseOp_returnFocus, PatchEvent.isRebaseOp]
    · simp [List.filter_append, filter_isRebaseOp_returnFocus, PatchEvent.isRebaseOp]
    · intro hd
      rcases handleMovePatchIntoWorkingTree_of_normal E hw with
        ⟨err, hf1, _, _⟩ | ⟨_, hd1, _, _⟩ | ⟨_, _, hrun, _⟩
      · rw [hf] at hf1; simp at hf1
      · rw [hd] at hd1; simp at hd1
      · rw [hrun]
        simp [List.filter_append, filter_isRebaseOp_returnFocus, PatchEvent.isRebaseOp,
          handleMovePatchIntoWorkingTree.pull, WithWaitingStatus]
    · intro hd
      rcases handleMovePatchIntoWorkingTree_of_normal E hw with
        ⟨err, hf1, _, _⟩ | ⟨_, _, _, hconf⟩ | ⟨_, hd1, _, _⟩
      · rw [hf] at hf1; simp at hf1
      · refine ⟨_, hconf, ?_⟩
        intro E1
        simp [PatchEvent.isRebaseOp, handleMovePatchIntoWorkingTree.pull, WithWaitingStatus]
      · rw [hd] at hd1; simp at hd1

/-- C8 at an example: during a rebase the delete handler only reports the error. -/
theorem rewrite_handlers_during_rebase_example :
    handleDeletePatchFromCommit (demoPatchEnv (.other 1) true) =
      ⟨none, [.ErrorMsg "cannot patch while rebasing"]⟩ :=
  ((rewrite_handlers_only_in_normal_working_tree_state (demoPatchEnv (.other 1) true)).1
    (by decide)).1

/-- The three answers of `setCommitMessageAtIndex`, by what the history lookup answers. -/
theorem setCommitMessageAtIndex_cases (E : CommitEnv) (index : Int) :
    (∃ msg, E.GetCommitMessageFromHistory index = .ok msg ∧
      setCommitMessageAtIndex E index =
        (true, none, [.GetCommitMessageFromHistory index, .UpdateCommitPanelView msg])) ∨
    (E.GetCommitMessageFromHistory index = .ErrInvalidCommitIndex ∧
      setCommitMessageAtIndex E index = (false, none, [.GetCommitMessageFromHistory index])) ∨
    (∃ err, E.GetCommitMessageFromHistory index = .otherError err ∧
      setCommitMessageAtIndex E index =
        (false, E.ErrorMsg E.CommitWithoutMessageErr,
          [.GetCommitMessageFromHistory index, .ErrorMsg E.CommitWithoutMessageErr])) := by
  unfold setCommitMessageAtIndex
  cases h : E.GetCommitMessageFromHistory index with
  | ok msg => left; exact ⟨msg, rfl, rfl⟩
  | ErrInvalidCommitIndex => right; left; exact ⟨rfl, rfl⟩
  | otherError err => right; right; exact ⟨err, rfl, rfl⟩

/-- The outcome of `handleCommitIndexChange`: the index moves to `NoCommitIndex` without a
lookup, or to an index whose lookup succeeded, or it stays after a failed lookup. -/
theorem handleCommitIndexChange_cases (N : Int) (E : CommitEnv) (ctx : CommitMessageContext)
    (value : Int) :
    (wrapInt64 (ctx.selectedIndex + value) = N ∧
      handleCommitIndexChange N E ctx value =
        ⟨none, ⟨N, ctx.historyMessage⟩,
          [.SetMessageAndDescriptionInView ctx.historyMessage]⟩) ∨
    (wrapInt64 (ctx.selectedIndex + value) ≠ N ∧
      ∃ msg, E.GetCommitMessageFromHistory (wrapInt64 (ctx.selectedIndex + value)) = .ok msg ∧
        (handleCommitIndexChange N E ctx value).ret = none ∧
        (handleCommitIndexChange N E ctx value).ctx.selectedIndex =
          wrapInt64 (ctx.selectedIndex + value) ∧
        (handleCommitIndexChange N E ctx value).events =
          [.GetCommitMessageFromHistory (wrapInt64 (ctx.selectedIndex + value)),
            .UpdateCommitPanelView msg]) ∨
    (wrapInt64 (ctx.selectedIndex + value) ≠ N ∧
      E.GetCommitMessageFromHistory (wrapInt64 (ctx.selectedIndex + value)) =
        .ErrInvalidCommitIndex ∧
        (handleCommitIndexChange N E ctx value).ret = none ∧
        (handleCommitIndexChange N E ctx value).ctx.selectedIndex = ctx.selectedIndex ∧
        (handleCommitIndexChange N E ctx value).events =
          [.GetCommitMessageFromHistory (wrapInt64 (ctx.selectedIndex + value))]) ∨
    (wrapInt64 (ctx.selectedIndex + value) ≠ N ∧
      ∃ err, E.GetCommitMessageFromHistory (wrapInt64 (ctx.selectedIndex + value)) =
        .otherError err ∧
        (handleCommitIndexChange N E ctx value).ret = E.ErrorMsg E.CommitWithoutMessageErr ∧
        (handleCommitIndexChange N E ctx value).ctx.selectedIndex = ctx.selectedIndex ∧
        (handleCommitIndexChange N E ctx value).events =
          [.GetCommitMessageFromHistory (wrapInt64 (ctx.selectedIndex + value)),
            .ErrorMsg E.CommitWithoutMessageErr]) := by
  by_cases hnew : wrapInt64 (ctx.selectedIndex + value) = N
  · left
    refine ⟨hnew, ?_⟩
    simp only [handleCommitIndexChange, hnew, if_true]
  · right
    rcases setCommitMessageAtIndex_cases E (wrapInt64 (ctx.selectedIndex + value)) with
      ⟨msg, hget, hset⟩ | ⟨hget, hset⟩ | ⟨err, hget, hset⟩
    · left
      refine ⟨hnew, msg, hget, ?_, ?_, ?_⟩ <;>
        simp only [handleCommitIndexChange, hnew, if_false, hset, if_true]
    · right; left
      refine ⟨hnew, hget, ?_, ?_, ?_⟩ <;>
        simp only [handleCommitIndexChange, hnew, if_false, hset, Bool.false_eq_true]
      split <;> rfl
    · right; right
      refine ⟨hnew, err, hget, ?_, ?_, ?_⟩ <;>
        simp only [handleCommitIndexChange, hnew, if_false, hset, Bool.false_eq_true]
      split <;> rfl

/-- The selected index after `handleCommitIndexChange` is the old one or the wrapped sum. -/
theorem handleCommitIndexChange_index (N : Int) (E : CommitEnv) (ctx : CommitMessageContext)
    (value : Int) :
    (handleCommitIndexChange N E ctx value).ctx.selectedIndex = ctx.selectedIndex ∨
    (handleCommitIndexChange N E ctx value).ctx.selectedIndex =
      wrapInt64 (ctx.selectedIndex + value) := by
  rcases handleCommitIndexChange_cases N E ctx value with
    ⟨hn, hr⟩ | ⟨_, _, _, _, hi, _⟩ | ⟨_, _, _, hi, _⟩ | ⟨_, _, _, _, hi, _⟩
  · right; rw [hr, hn]
  · right; exact hi
  · left; exact hi
  · left; exact hi

/-- One key press that cannot wrap keeps the selected index at or above `NoCommitIndex`, and
raises it by at most one, and only if the key is the previous key. -/
theorem pressKey_keeps_lower_bound (N : Int) (ctx : CommitMessageContext) (key : HistoryKey)
    (E : CommitEnv) (hN : MinInt64 ≤ N) (h : N ≤ ctx.selectedIndex)
    (hmax : ctx.selectedIndex + (previousPresses [(key, E)] : Int) ≤ MaxInt64) :
    N ≤ (pressKey N ctx (key, E)).ctx.selectedIndex ∧
    (pressKey N ctx (key, E)).ctx.selectedIndex ≤
      ctx.selectedIndex + (previousPresses [(key, E)] : Int) := by
  unfold MinInt64 at hN
  unfold MaxInt64 at hmax
  cases key with
  | previous =>
    simp only [previousPresses, Nat.zero_add, Nat.cast_one] at hmax ⊢
    simp only [pressKey, handlePreviousCommit]
    have hw : wrapInt64 (ctx.selectedIndex + 1) = ctx.selectedIndex + 1 := by
      unfold wrapInt64; omega
    rcases handleCommitIndexChange_index N E ctx 1 with hi | hi
    · rw [hi]; omega
    · rw [hi, hw]; omega
  | next =>
    simp only [previousPresses, Nat.cast_zero, add_zero] at hmax ⊢
    simp only [pressKey, handleNextCommit]
    by_cases hcur : ctx.selectedIndex = N
    · simp only [hcur, if_true]
      exact ⟨le_refl _, le_refl _⟩
    · simp only [hcur, if_false]
      have hw : wrapInt64 (ctx.selectedIndex + -1) = ctx.selectedIndex - 1 := by
        unfold wrapInt64; omega
      rcases handleCommitIndexChange_index N E ctx (-1) with hi | hi
      · rw [hi]; omega
      · rw [hi, hw]; omega

/-- What one call of `handleCommitIndexChange` can do to the selected index. -/
theorem handleCommitIndexChange_index_facts (N : Int) (ctx : CommitMessageContext)
    (E : CommitEnv) (value : Int) :
    ((handleCommitIndexChange N E ctx value).ctx.selectedIndex ≠ ctx.selectedIndex →
      (handleCommitIndexChange N E ctx value).ctx.selectedIndex = N ∨
      (CommitEvent.GetCommitMessageFromHistory
          (handleCommitIndexChange N E ctx value).ctx.selectedIndex ∈
          (handleCommitIndexChange N E ctx value).events ∧
        ∃ msg, E.GetCommitMessageFromHistory
          (handleCommitIndexChange N E ctx value).ctx.selectedIndex = .ok msg)) ∧
    (∀ index : Int,
      CommitEvent.GetCommitMessageFromHistory index ∈
        (handleCommitIndexChange N E ctx value).events →
      E.GetCommitMessageFromHistory index = .ErrInvalidCommitIndex →
        (handleCommitIndexChange N E ctx value).ctx.selectedIndex = ctx.selectedIndex ∧
        (handleCommitIndexChange N E ctx value).ret = none) := by
  rcases handleCommitIndexChange_cases N E ctx value with
    ⟨_, hr⟩ | ⟨_, msg, hget, hret, hi, hev⟩ | ⟨_, hget, hret, hi, hev⟩ |
    ⟨_, err, hget, hret, hi, hev⟩
  · rw [hr]
    simp
  · rw [hi, hev]
    refine ⟨fun _ => Or.inr ⟨by simp, msg, hget⟩, ?_⟩
    intro index hmem hinv
    simp only [List.mem_cons, CommitEvent.GetCommitMessageFromHistory.injEq,
      List.mem_singleton, List.not_mem_nil, or_false] at hmem
    rcases hmem with hmem | hmem
    · rw [hmem, hget] at hinv
      exact absurd hinv (by simp)
    · exact absurd hmem (by simp)
  · rw [hi, hev]
    exact ⟨fun hne => absurd rfl hne, fun _ _ _ => ⟨rfl, hret⟩⟩
  · rw [hi, hev]
    refine ⟨fun hne => absurd rfl hne, ?_⟩
    intro index hmem hinv
    simp only [List.mem_cons, CommitEvent.GetCommitMessageFromHistory.injEq,
      List.mem_singleton, List.not_mem_nil, or_false] at hmem
    rcases hmem with hmem | hmem
    · rw [hmem, hget] at hinv
      exact absurd hinv (by simp)
    · exact absurd hmem (by simp)

/-- Any sequence of key presses in which the increments cannot wrap keeps the selected index at
or above `NoCommitIndex`. -/
theorem pressKeys_keeps_lower_bound (N : Int) (hN : MinInt64 ≤ N)
    (keys : List (HistoryKey × CommitEnv)) (ctx : CommitMessageContext)
    (h : N ≤ ctx.selectedIndex)
    (hmax : ctx.selectedIndex + (previousPresses keys : Int) ≤ MaxInt64) :
    N ≤ (pressKeys N ctx keys).selectedIndex := by
  induction keys generalizing ctx with
  | nil => exact h
  | cons k rest ih =>
    obtain ⟨key, E⟩ := k
    have hcount : (previousPresses ((key, E) :: rest) : Int) =
        (previousPresses [(key, E)] : Int) + (previousPresses rest : Int) := by
      cases key <;> simp [previousPresses]
      omega
    have hnonneg : (0 : Int) ≤ (previousPresses rest : Int) := Int.ofNat_nonneg _
    have hstep := pressKey_keeps_lower_bound N ctx key E hN h (by omega)
    simp only [pressKeys]
    exact ih (pressKey N ctx (key, E)).ctx hstep.1 (by omega)

/-- C10 (counterexample): NoCommitIndex is -1, the selected index is MaxInt64 (so it is
>= NoCommitIndex) and the history lookup succeeds; one handlePreviousCommit wraps the index to
MinInt64, which is below NoCommitIndex. -/
theorem commit_history_cursor_wraps_below_NoCommitIndex :
    (-1 : Int) ≤ 9223372036854775807 ∧
    (pressKeys (-1) ⟨9223372036854775807, ""⟩
      [(.previous, demoCommitEnvAllOk)]).selectedIndex = -9223372036854775808 ∧
    (handlePreviousCommit (-1) demoCommitEnvAllOk ⟨9223372036854775807, ""⟩).ctx.selectedIndex =
      -9223372036854775808 ∧
    ¬ ((-1 : Int) ≤ -9223372036854775808) := by
  decide

/-- C10 (amended): the commit-message history cursor does not go below NoCommitIndex as long as
the 64-bit index cannot wrap: if the selected index is >= NoCommitIndex and the index plus the
number of handlePreviousCommit calls of the sequence is <= MaxInt64, then after the sequence of
handlePreviousCommit and handleNextCommit calls (whatever the collaborators answer at each call)
it is still >= NoCommitIndex.  handleNextCommit at NoCommitIndex changes nothing; each call
changes the selected index only to NoCommitIndex or to an index for which
GetCommitMessageFromHistory was called and succeeded; and when the lookup answers
ErrInvalidCommitIndex the index is left unchanged and nil is returned.  This holds for every
Go int value N of the constant NoCommitIndex. -/
theorem commit_history_cursor_never_below_NoCommitIndex_without_wrap (N : Int)
    (ctx : CommitMessageContext) (keys : List (HistoryKey × CommitEnv)) :
    (MinInt64 ≤ N → N ≤ ctx.selectedIndex →
      ctx.selectedIndex + (previousPresses keys : Int) ≤ MaxInt64 →
        N ≤ (pressKeys N ctx keys).selectedIndex) ∧
    (∀ E : CommitEnv, ctx.selectedIndex = N → handleNextCommit N E ctx = ⟨none, ctx, []⟩) ∧
    (∀ (key : HistoryKey) (E : CommitEnv),
      (pressKey N ctx (key, E)).ctx.selectedIndex ≠ ctx.selectedIndex →
        (pressKey N ctx (key, E)).ctx.selectedIndex = N ∨
        (CommitEvent.GetCommitMessageFromHistory (pressKey N ctx (key, E)).ctx.selectedIndex ∈
            (pressKey N ctx (key, E)).events ∧
          ∃ msg, E.GetCommitMessageFromHistory (pressKey N ctx (key, E)).ctx.selectedIndex =
            .ok msg)) ∧
    (∀ (key : HistoryKey) (E : CommitEnv) (index : Int),
      CommitEvent.GetCommitMessageFromHistory index ∈ (pressKey N ctx (key, E)).events →
      E.GetCommitMessageFromHistory index = .ErrInvalidCommitIndex →
        (pressKey N ctx (key, E)).ctx.selectedIndex = ctx.selectedIndex ∧
        (pressKey N ctx (key, E)).ret = none) := by
  have hchange := handleCommitIndexChange_index_facts N ctx
  refine ⟨fun hN h hmax => pressKeys_keeps_lower_bound N hN keys ctx h hmax, ?_, ?_, ?_⟩
  · intro E hcur
    simp only [handleNextCommit, hcur, if_true]
  · intro key E hne
    cases key with
    | previous => exact (hchange E 1).1 hne
    | next =>
      simp only [pressKey, handleNextCommit] at hne ⊢
      by_cases hcur : ctx.selectedIndex = N
      · simp only [hcur, if_true] at hne
        exact absurd rfl hne
      · simp only [hcur, if_false] at hne ⊢
        exact (hchange E (-1)).1 hne
  · intro key E index hmem hinv
    cases key with
    | previous => exact (hchange E 1).2 index hmem hinv
    | next =>
      simp only [pressKey, handleNextCommit] at hmem ⊢
      by_cases hcur : ctx.selectedIndex = N
      · simp only [hcur, if_true] at hmem
        simp at hmem
      · simp only [hcur, if_false] at hmem ⊢
        exact (hchange E (-1)).2 index hmem hinv

/-- C10 (amended) at an example: with NoCommitIndex = -1, from the draft (index -1) three
presses of the previous key over a history of two commits and then three presses of the next
key leave the index at or above -1. -/
theorem commit_history_cursor_example :
    (-1 : Int) ≤ (pressKeys (-1) ⟨-1, ""⟩
      [(.previous, demoCommitEnv), (.previous, demoCommitEnv), (.previous, demoCommitEnv),
       (.next, demoCommitEnv), (.next, demoCommitEnv), (.next, demoCommitEnv)]).selectedIndex :=
  (commit_history_cursor_never_below_NoCommitIndex_without_wrap (-1) ⟨-1, ""⟩
    [(.previous, demoCommitEnv), (.previous, demoCommitEnv), (.previous, demoCommitEnv),
     (.next, demoCommitEnv), (.next, demoCommitEnv), (.next, demoCommitEnv)]).1
    (by decide) (by decide) (by decide)

end Controllers
